import Mathlib

/-!
snid: startup configuration and backend policies.

A shallow embedding of `src/main.go` (flag handlers, backend selection, the
listen check) together with the parts of Go's standard `net` package that the
flag handlers call (`net.ParseIP`, `net.ParseCIDR`, `IP.To4`, `IPNet.Contains`).

Go strings are Lean `String`s read character by character; every character the
parsers below accept is ASCII, so reading characters or bytes makes no
difference to them.  Bytes are natural numbers below 256.  A nil `net.IP` is
`none : Option net.IP`.
-/

deriving instance DecidableEq for Except

namespace net

/-- Go `net.IP`: a slice of 4 or 16 bytes. -/
abbrev IP := List Nat

/-- Go `net.IPMask`. -/
abbrev IPMask := List Nat

/-- Go `net.IPNet`. -/
structure IPNet where
  IP : net.IP
  Mask : net.IPMask
deriving DecidableEq, Repr

/-- Go `net.IPv4len`. -/
def IPv4len : Nat := 4

/-- Go `net.IPv6len`. -/
def IPv6len : Nat := 16

/-- Go `net.v4InV6Prefix`. -/
def v4InV6Prefix : List Nat := [0, 0, 0, 0, 0, 0, 0, 0, 0, 0, 0xff, 0xff]

/-- Result of `netip.ParseAddr` with an empty zone: a 4-byte or a 16-byte address. -/
inductive Addr where
  | v4 (fields : List Nat)
  | v6 (ip : List Nat)
deriving DecidableEq, Repr

/-- Go `netip.Addr.As16`. -/
def Addr.As16 : Addr → List Nat
  | .v4 fields => v4InV6Prefix ++ fields
  | .v6 ip => ip

/-- Go `netip.Addr.BitLen`. -/
def Addr.BitLen : Addr → Nat
  | .v4 _ => 32
  | .v6 _ => 128

/-- The loop of Go `netip.parseIPv4Fields` over the remaining characters.
`first` says the loop index is 0, `prevDot` that the previous character was a dot. -/
def parseIPv4FieldsLoop : List Char → Bool → Bool → Nat → Nat → Nat → List Nat →
    Option (Nat × Nat × List Nat)
  | [], _, _, val, pos, _, fields => some (val, pos, fields)
  | c :: rest, first, prevDot, val, pos, digLen, fields =>
    if '0' ≤ c ∧ c ≤ '9' then
      if digLen = 1 ∧ val = 0 then none
      else if val * 10 + (c.toNat - '0'.toNat) > 255 then none
      else parseIPv4FieldsLoop rest false false (val * 10 + (c.toNat - '0'.toNat)) pos
        (digLen + 1) fields
    else if c = '.' then
      if first ∨ rest = [] ∨ prevDot then none
      else if pos = 3 then none
      else parseIPv4FieldsLoop rest false true 0 (pos + 1) 0 (fields.set pos val)
    else none

/-- Go `netip.parseIPv4Fields`: the four octets are written into `fields`. -/
def parseIPv4Fields (s : List Char) (fields : List Nat) : Option (List Nat) :=
  match parseIPv4FieldsLoop s true false 0 0 0 fields with
  | none => none
  | some (val, pos, fields1) => if pos < 3 then none else some (fields1.set 3 val)

/-- Go `netip.parseIPv4`. -/
def parseIPv4 (s : List Char) : Option Addr :=
  match parseIPv4Fields s [0, 0, 0, 0] with
  | none => none
  | some fields => some (.v4 fields)

/-- Value of a hexadecimal digit, as in the inner loop of `netip.parseIPv6`. -/
def hexVal (c : Char) : Option Nat :=
  if '0' ≤ c ∧ c ≤ '9' then some (c.toNat - '0'.toNat)
  else if 'a' ≤ c ∧ c ≤ 'f' then some (c.toNat - 'a'.toNat + 10)
  else if 'A' ≤ c ∧ c ≤ 'F' then some (c.toNat - 'A'.toNat + 10)
  else none

/-- The hex-group loop of `netip.parseIPv6`: returns `off`, `acc` and `s[off:]`. -/
def hexLoop : List Char → Nat → Nat → Option (Nat × Nat × List Char)
  | [], off, acc => some (off, acc, [])
  | c :: rest, off, acc =>
    match hexVal c with
    | none => some (off, acc, c :: rest)
    | some v =>
      if off > 3 then none
      else if acc * 16 + v > 65535 then none
      else hexLoop rest (off + 1) (acc * 16 + v)

/-- The main loop `for i < 16` of `netip.parseIPv6`; at most eight rounds run,
since every round that continues adds 2 to `i`.  Returns the remaining string,
`i`, the address bytes and the ellipsis position (`none` for Go's -1). -/
def parseIPv6Loop : Nat → List Char → Nat → List Nat → Option Nat →
    Option (List Char × Nat × List Nat × Option Nat)
  | 0, s, i, ip, ellipsis => some (s, i, ip, ellipsis)
  | fuel + 1, s, i, ip, ellipsis =>
    if ¬ i < 16 then some (s, i, ip, ellipsis)
    else
      match hexLoop s 0 0 with
      | none => none
      | some (off, acc, rest) =>
        if off = 0 then none
        else if rest.head? = some '.' then
          if ellipsis = none ∧ i ≠ 12 then none
          else if i + 4 > 16 then none
          else
            match parseIPv4Fields s ((ip.drop i).take 4) with
            | none => none
            | some fields => some ([], i + 4, ip.take i ++ fields ++ ip.drop (i + 4), ellipsis)
        else
          let ip1 := (ip.set i (acc / 256)).set (i + 1) (acc % 256)
          match rest with
          | [] => some ([], i + 2, ip1, ellipsis)
          | c :: s1 =>
            if c ≠ ':' then none
            else if s1 = [] then none
            else if s1.head? = some ':' then
              if ellipsis.isSome then none
              else if s1.tail = [] then some ([], i + 2, ip1, some (i + 2))
              else parseIPv6Loop fuel s1.tail (i + 2) ip1 (some (i + 2))
            else parseIPv6Loop fuel s1 (i + 2) ip1 ellipsis

/-- The end of `netip.parseIPv6`: the whole string must be used, and a short
address is completed by moving the bytes after the ellipsis to the end and
clearing the gap. -/
def expandEllipsis : List Char × Nat × List Nat × Option Nat → Option (List Nat)
  | (s, i, ip, ellipsis) =>
    if s ≠ [] then none
    else if i < 16 then
      match ellipsis with
      | none => none
      | some e => some (ip.take e ++ List.replicate (16 - i) 0 ++ (ip.drop e).take (i - e))
    else if ellipsis.isSome then none
    else some ip

/-- Go `netip.parseIPv6`, for the callers that refuse a zone: a string with a
`%` either fails or yields a non-empty zone, and both are refused. -/
def parseIPv6 (s : List Char) : Option Addr :=
  if '%' ∈ s then none
  else
    match s with
    | ':' :: ':' :: [] => some (.v6 (List.replicate 16 0))
    | ':' :: ':' :: s1 =>
      ((parseIPv6Loop 8 s1 0 (List.replicate 16 0) (some 0)).bind expandEllipsis).map Addr.v6
    | _ => ((parseIPv6Loop 8 s 0 (List.replicate 16 0) none).bind expandEllipsis).map Addr.v6

/-- The dispatch loop of Go `netip.ParseAddr` over the characters still to scan;
`s` is the whole string. -/
def parseAddrScan (s : List Char) : List Char → Option Addr
  | [] => none
  | c :: rest =>
    if c = '.' then parseIPv4 s
    else if c = ':' then parseIPv6 s
    else if c = '%' then none
    else parseAddrScan s rest

/-- Go `netip.ParseAddr`, refusing a zone. -/
def ParseAddr (s : String) : Option Addr :=
  parseAddrScan s.toList s.toList

/-- Go `net.ParseIP`: the 16-byte form of the address, or nil. -/
def ParseIP (s : String) : Option IP :=
  match ParseAddr s with
  | none => none
  | some addr => some addr.As16

/-- Go `net.isZeros`. -/
def isZeros (p : List Nat) : Bool :=
  p.all (fun b => b == 0)

/-- Go `net.allFF`. -/
def allFF (b : List Nat) : Bool :=
  b.all (fun c => c == 0xff)

/-- Go `IP.To4`: the 4-byte form of an IPv4 address, nil otherwise. -/
def IP.To4 (ip : IP) : Option IP :=
  if ip.length = IPv4len then some ip
  else if ip.length = IPv6len ∧ isZeros (ip.take 10) ∧ ip.getD 10 0 = 0xff ∧ ip.getD 11 0 = 0xff then
    some ((ip.drop 12).take 4)
  else none

/-- Go `net.dtoi`: decimal to integer; returns the number, the characters
consumed and a success flag.  `big` is 0xFFFFFF. -/
def dtoiLoop : List Char → Nat → Nat → Nat × Nat × Bool
  | [], n, i => (n, i, true)
  | c :: rest, n, i =>
    if '0' ≤ c ∧ c ≤ '9' then
      if n * 10 + (c.toNat - '0'.toNat) ≥ 0xFFFFFF then (0xFFFFFF, i, false)
      else dtoiLoop rest (n * 10 + (c.toNat - '0'.toNat)) (i + 1)
    else (n, i, true)

/-- Go `net.dtoi`. -/
def dtoi (s : List Char) : Nat × Nat × Bool :=
  match dtoiLoop s 0 0 with
  | (n, i, ok) => if ok = false then (n, i, false) else if i = 0 then (0, 0, false) else (n, i, true)

/-- The loop of Go `net.CIDRMask`: `l` bytes still to write, `n` ones still to place. -/
def cidrMaskLoop : Nat → Nat → List Nat
  | 0, _ => []
  | l + 1, n =>
    if n ≥ 8 then 0xff :: cidrMaskLoop l (n - 8)
    else (0xff - 0xff / 2 ^ n) :: cidrMaskLoop l 0

/-- Go `net.CIDRMask`; nil is `none`. -/
def CIDRMask (ones bits : Nat) : Option IPMask :=
  if bits ≠ 8 * IPv4len ∧ bits ≠ 8 * IPv6len then none
  else if ones > bits then none
  else some (cidrMaskLoop (bits / 8) ones)

/-- Go `IP.Mask`; nil is `none`. -/
def IP.Mask (ip : IP) (mask : IPMask) : Option IP :=
  let mask1 := if mask.length = IPv6len ∧ ip.length = IPv4len ∧ allFF (mask.take 12) then
    mask.drop 12 else mask
  let ip1 := if mask1.length = IPv4len ∧ ip.length = IPv6len ∧ ip.take 12 = v4InV6Prefix then
    ip.drop 12 else ip
  if ip1.length ≠ mask1.length then none
  else some (List.zipWith (fun a b => Nat.land a b) ip1 mask1)

/-- Go `net.ParseCIDR`: the address and the network, or a parse error. -/
def ParseCIDR (s : String) : Except String (IP × IPNet) :=
  let cs := s.toList
  if '/' ∉ cs then .error ("invalid CIDR address: " ++ s)
  else
    let addr := cs.takeWhile (fun c => c != '/')
    let mask := (cs.dropWhile (fun c => c != '/')).drop 1
    match parseAddrScan addr addr with
    | none => .error ("invalid CIDR address: " ++ s)
    | some ipAddr =>
      match dtoi mask with
      | (n, i, ok) =>
        if ok = false ∨ i ≠ mask.length ∨ n > ipAddr.BitLen then
          .error ("invalid CIDR address: " ++ s)
        else
          match CIDRMask n ipAddr.BitLen with
          | none => .error ("invalid CIDR address: " ++ s)
          | some m =>
            match IP.Mask ipAddr.As16 m with
            | none => .error ("invalid CIDR address: " ++ s)
            | some masked => .ok (ipAddr.As16, { IP := masked, Mask := m })

/-- Go `net.networkNumberAndMask`; `(nil, nil)` is `none`. -/
def networkNumberAndMask (n : IPNet) : Option (IP × IPMask) :=
  match (match n.IP.To4 with
    | some ip4 => some ip4
    | none => if n.IP.length ≠ IPv6len then none else some n.IP) with
  | none => none
  | some ip =>
    if n.Mask.length = IPv4len then
      if ip.length ≠ IPv4len then none else some (ip, n.Mask)
    else if n.Mask.length = IPv6len then
      if ip.length = IPv4len then some (ip, n.Mask.drop 12) else some (ip, n.Mask)
    else none

/-- Go `IPNet.Contains`. -/
def IPNet.Contains (n : IPNet) (ip : net.IP) : Bool :=
  match networkNumberAndMask n with
  | none => false
  | some (nn, m) =>
    let ip1 := match ip.To4 with
      | some x => x
      | none => ip
    if ip1.length ≠ nn.length then false
    else (List.zipWith (fun a b => Nat.land a b) nn m) == (List.zipWith (fun a b => Nat.land a b) ip1 m)

end net

/-! ## `src/main.go` -/

namespace Snid

/-- The `flags` struct of `main`. -/
structure Flags where
  listen : List String
  defaultHostname : String
  backendType : String
  proxyProto : Bool
  unixDirectory : String
  backendCidr : List net.IPNet
  backendPort : Int
  nat46Prefix : Option net.IP
deriving DecidableEq, Repr

/-- The flags before `flag.Parse`: zero values and the declared defaults. -/
def Flags.initial : Flags :=
  { listen := [], defaultHostname := "", backendType := "", proxyProto := false,
    unixDirectory := "", backendCidr := [], backendPort := 0, nat46Prefix := none }

/-- The composite literal `&UnixDialer{Directory: ...}` of `main`. -/
structure UnixDialer where
  Directory : String
deriving DecidableEq, Repr

/-- The composite literal `&TCPDialer{Port: ..., Allowed: ..., IPv6SourcePrefix: ...}`
of `main`; a field the literal leaves out is nil. -/
structure TCPDialer where
  Port : Int
  Allowed : List net.IPNet
  IPv6SourcePrefix : Option net.IP
deriving DecidableEq, Repr

/-- The values `main` stores in `server.Backend` (interface `BackendDialer`). -/
inductive BackendDialer where
  | unix (d : UnixDialer)
  | tcp (d : TCPDialer)
deriving DecidableEq, Repr

/-- The `Server` that `main` builds, once its backend is set. -/
structure Server where
  ProxyProtocol : Bool
  DefaultHostname : String
  Backend : BackendDialer
deriving DecidableEq, Repr

/-- The handler of `-listen`: the new flags and the error returned (none for nil). -/
def listenHandler (flags : Flags) (arg : String) : Flags × Option String :=
  ({ flags with listen := flags.listen ++ [arg] }, none)

/-- The handler of `-backend-cidr`. -/
def backendCidrHandler (flags : Flags) (arg : String) : Flags × Option String :=
  match net.ParseCIDR arg with
  | .error err => (flags, some err)
  | .ok (_, ipnet) => ({ flags with backendCidr := flags.backendCidr ++ [ipnet] }, none)

/-- The handler of `-nat46-prefix`: the flag is assigned before it is checked. -/
def nat46PrefixHandler (flags : Flags) (arg : String) : Flags × Option String :=
  match net.ParseIP arg with
  | none => ({ flags with nat46Prefix := none }, some "not a valid IP address")
  | some ip =>
    if (net.IP.To4 ip).isSome then
      ({ flags with nat46Prefix := some ip }, some "not an IPv6 address")
    else ({ flags with nat46Prefix := some ip }, none)

/-- One occurrence of a flag on the command line.  The values of the
`StringVar`, `BoolVar` and `IntVar` flags arrive already converted by package
`flag`; the `flag.Func` flags carry the raw argument given to their handler. -/
inductive FlagArg where
  | listen (arg : String)
  | defaultHostname (value : String)
  | backendType (value : String)
  | proxyProto (value : Bool)
  | unixDirectory (value : String)
  | backendCidr (arg : String)
  | backendPort (value : Int)
  | nat46Prefix (arg : String)
deriving DecidableEq, Repr

/-- What `flag.Parse` does with one occurrence. -/
def setFlag (flags : Flags) : FlagArg → Flags × Option String
  | .listen arg => listenHandler flags arg
  | .defaultHostname value => ({ flags with defaultHostname := value }, none)
  | .backendType value => ({ flags with backendType := value }, none)
  | .proxyProto value => ({ flags with proxyProto := value }, none)
  | .unixDirectory value => ({ flags with unixDirectory := value }, none)
  | .backendCidr arg => backendCidrHandler flags arg
  | .backendPort value => ({ flags with backendPort := value }, none)
  | .nat46Prefix arg => nat46PrefixHandler flags arg

/-- Go `flag.Parse` on the default command line (`ExitOnError`): occurrences
are applied left to right, and the first handler error ends the process. -/
def parseFlags (flags : Flags) : List FlagArg → Except String Flags
  | [] => .ok flags
  | a :: rest =>
    match setFlag flags a with
    | (_, some err) => .error err
    | (flags1, none) => parseFlags flags1 rest

/-- The `switch flags.backendType` of `main` (lines 57-78): the backend stored
in the server, or the message of the `log.Fatal` that ends the process. -/
def selectBackend (flags : Flags) : Except String BackendDialer :=
  if flags.backendType = "unix" then
    if flags.unixDirectory = "" then
      .error "-unix-directory must be specified when you use -backend unix"
    else .ok (.unix { Directory := flags.unixDirectory })
  else if flags.backendType = "tcp" then
    if flags.backendCidr.length = 0 then
      .error "At least one -backend-cidr flag must be specified when you use -backend tcp"
    else .ok (.tcp { Port := flags.backendPort, Allowed := flags.backendCidr,
                     IPv6SourcePrefix := none })
  else if flags.backendType = "nat46" then
    if flags.backendCidr.length = 0 then
      .error "At least one -backend-cidr flag must be specified when you use -backend nat46"
    else if flags.nat46Prefix = none then
      .error "-nat46-prefix must be specified when you use -backend nat46"
    else .ok (.tcp { Port := flags.backendPort, Allowed := flags.backendCidr,
                     IPv6SourcePrefix := flags.nat46Prefix })
  else .error "-backend-type must be unix, tcp, or nat46"

/-- Lines 52-78 of `main`: the server with its backend, or the fatal message. -/
def buildServer (flags : Flags) : Except String Server :=
  match selectBackend flags with
  | .error msg => .error msg
  | .ok backend =>
    .ok { ProxyProtocol := flags.proxyProto, DefaultHostname := flags.defaultHostname,
          Backend := backend }

/-- How far `main` gets: `flag.Parse` exits on a handler error, `log.Fatal`
ends the process, or `listener.OpenAll` is called. -/
inductive Outcome where
  | flagError (err : String)
  | fatal (msg : String)
  | openAll (addrs : List String) (server : Server)
deriving DecidableEq, Repr

/-- `main` after `flag.Parse` (lines 52-84). -/
def run (flags : Flags) : Outcome :=
  match buildServer flags with
  | .error msg => .fatal msg
  | .ok server =>
    if flags.listen.length = 0 then .fatal "At least one -listen flag must be specified"
    else .openAll flags.listen server

/-- `main` up to the call of `listener.OpenAll`, on the flag occurrences of the
command line. -/
def main (args : List FlagArg) : Outcome :=
  match parseFlags Flags.initial args with
  | .error err => .flagError err
  | .ok flags => run flags

/-- The arguments of the `-listen` occurrences, in command-line order. -/
def listenArgs : List FlagArg → List String
  | [] => []
  | .listen arg :: rest => arg :: listenArgs rest
  | _ :: rest => listenArgs rest

/-- The arguments of the `-backend-cidr` occurrences, in command-line order. -/
def backendCidrArgs : List FlagArg → List String
  | [] => []
  | .backendCidr arg :: rest => arg :: backendCidrArgs rest
  | _ :: rest => backendCidrArgs rest

end Snid

/-! ## Backend dialers and the SNI extractor

`src/backend.go` declares only the capability `Dial(string) (BackendConn, error)`;
the dialers `main` constructs and the extractor are described in the
specification (sections 4.1 and 4.2) and are modelled from it here. -/

namespace Snid

/-- The dialer failures of the specification's error taxonomy (section 7). -/
inductive DialError where
  | InvalidHostname
  | BackendNotAllowed
  | BackendUnreachable
deriving DecidableEq, Repr

/-- The backend target a dialer resolves a hostname to, and then connects to:
a local socket path, or an address and a port. -/
inductive Target where
  | socket (path : String)
  | tcp (address : net.IP) (port : Int)
deriving DecidableEq, Repr

/-- Modelled from the spec: the path join of the Local-Socket Dialer ("base
directory joined with the hostname"), with the separator `/`. -/
def joinPath (directory hostname : String) : String :=
  directory ++ "/" ++ hostname

/-- Modelled from the spec: `UnixDialer.Dial` (the Local-Socket Dialer of
section 4.2), which is not among the source files.  The hostname is validated
first; a rejected hostname resolves no path, so nothing is connected to.  The
result is the target the dialer goes on to connect to. -/
def UnixDialer.Dial (d : UnixDialer) (hostname : String) : Except DialError Target :=
  if hostname = "" ∨ '/' ∈ hostname.toList ∨ hostname = "." ∨ hostname = ".." ∨
      Char.ofNat 0 ∈ hostname.toList then
    .error .InvalidHostname
  else .ok (.socket (joinPath d.Directory hostname))

/-- Modelled from the spec: the allow-list check of the Restricted-Direct and
NAT64 dialers: the address lies inside at least one allow-listed prefix. -/
def allowed (nets : List net.IPNet) (ip : net.IP) : Bool :=
  nets.any (fun n => n.Contains ip)

/-- Modelled from the spec: `TCPDialer.Dial`, which is not among the source
files.  Without an `IPv6SourcePrefix` it is the Restricted-Direct Dialer of
section 4.2: the hostname must be a literal IP address inside the allow-list,
and the target is that address with the fixed port.  With a prefix it is the
NAT64 Dialer: the hostname must be a literal IPv4 address inside the
allow-list, and the target address is the first 96 bits of the prefix followed
by the four bytes of the IPv4 address.  No name is ever resolved. -/
def TCPDialer.Dial (d : TCPDialer) (hostname : String) : Except DialError Target :=
  match net.ParseIP hostname with
  | none => .error .InvalidHostname
  | some ip =>
    match d.IPv6SourcePrefix with
    | none =>
      if allowed d.Allowed ip then .ok (.tcp ip d.Port) else .error .BackendNotAllowed
    | some pfx =>
      match net.IP.To4 ip with
      | none => .error .InvalidHostname
      | some ip4 =>
        if allowed d.Allowed ip then .ok (.tcp (pfx.take 12 ++ ip4) d.Port)
        else .error .BackendNotAllowed

/-- The capability `BackendDialer.Dial` of `src/backend.go`, on the two
implementations `main` constructs. -/
def BackendDialer.Dial : BackendDialer → String → Except DialError Target
  | .unix d, hostname => d.Dial hostname
  | .tcp d, hostname => d.Dial hostname

/-- The sniffing failures of the specification's error taxonomy (section 7). -/
inductive SniffError where
  | SniffTimeout
  | HandshakeTooLarge
  | MalformedClientHello
  | NotHandshake
deriving DecidableEq, Repr

/-- What the extractor returns: the hostname bytes (none when SNI is absent),
the Sniff Buffer, and the input not yet read. -/
structure Sniffed where
  hostname : Option (List Nat)
  sniffBuffer : List Nat
  unread : List Nat
deriving DecidableEq, Repr

/-- A big-endian 16-bit field. -/
def be16 (n : Nat) : List Nat := [n / 256, n % 256]

/-- A big-endian 24-bit field. -/
def be24 (n : Nat) : List Nat := [n / 65536, n / 256 % 256, n % 256]

/-- Modelled from the spec: whether the handshake bytes gathered so far hold a
whole handshake message (1-byte type, 3-byte length, body). -/
def handshakeComplete : List Nat → Bool
  | _ :: l1 :: l2 :: l3 :: body => decide (l1 * 65536 + l2 * 256 + l3 ≤ body.length)
  | _ => false

/-- Modelled from the spec: the record loop of the SNI extractor (section 4.1).
`input` holds the bytes the client delivers before the sniffing deadline,
`sniff` the Sniff Buffer and `hs` the handshake bytes gathered so far.  Each
round reads one record header (type, version, 2-byte length), fails with
`NotHandshake` unless the type is 22, reads exactly `length` payload bytes, and
goes on to the next record until the handshake message is whole.  Reading past
`budget` buffered bytes fails with `HandshakeTooLarge`; running out of input
fails with `SniffTimeout`.  Returns the handshake bytes, the Sniff Buffer and
the unread input. -/
def readRecords (budget : Nat) : Nat → List Nat → List Nat → List Nat →
    Except SniffError (List Nat × List Nat × List Nat)
  | 0, _, _, _ => .error .SniffTimeout
  | fuel + 1, input, sniff, hs =>
    if sniff.length + 5 > budget then .error .HandshakeTooLarge
    else
      match input with
      | typ :: v1 :: v2 :: l1 :: l2 :: payload =>
        if typ ≠ 22 then .error .NotHandshake
        else if sniff.length + 5 + (l1 * 256 + l2) > budget then .error .HandshakeTooLarge
        else if payload.length < l1 * 256 + l2 then .error .SniffTimeout
        else
          let sniff1 := sniff ++ [typ, v1, v2, l1, l2] ++ payload.take (l1 * 256 + l2)
          let hs1 := hs ++ payload.take (l1 * 256 + l2)
          if handshakeComplete hs1 then .ok (hs1, sniff1, payload.drop (l1 * 256 + l2))
          else readRecords budget fuel (payload.drop (l1 * 256 + l2)) sniff1 hs1
      | _ => .error .SniffTimeout

/-- Modelled from the spec: the `server_name` extension body: skip the 2-byte
list length and the 1-byte name type, read the 2-byte name length and that
many bytes. -/
def parseServerName : List Nat → Except SniffError (Option (List Nat))
  | _ :: _ :: _ :: n1 :: n2 :: name =>
    if name.length < n1 * 256 + n2 then .error .MalformedClientHello
    else .ok (some (name.take (n1 * 256 + n2)))
  | _ => .error .MalformedClientHello

/-- Modelled from the spec: the scan of the extension entries (2-byte type,
2-byte length, data), stopping at the first `server_name` (type 0); when the
entries run out SNI is absent.  The first argument bounds the rounds; every
round consumes at least four bytes. -/
def scanExtensions : Nat → List Nat → Except SniffError (Option (List Nat))
  | 0, _ => .error .MalformedClientHello
  | _ + 1, [] => .ok none
  | fuel + 1, t1 :: t2 :: l1 :: l2 :: rest =>
    if rest.length < l1 * 256 + l2 then .error .MalformedClientHello
    else if t1 * 256 + t2 = 0 then parseServerName (rest.take (l1 * 256 + l2))
    else scanExtensions fuel (rest.drop (l1 * 256 + l2))
  | _ + 1, _ => .error .MalformedClientHello

/-- Modelled from the spec: the extensions block: a 2-byte total length and
the entries; a ClientHello that ends before it has no SNI. -/
def parseExtensions : List Nat → Except SniffError (Option (List Nat))
  | [] => .ok none
  | l1 :: l2 :: exts =>
    if exts.length < l1 * 256 + l2 then .error .MalformedClientHello
    else scanExtensions ((l1 * 256 + l2) + 1) (exts.take (l1 * 256 + l2))
  | _ => .error .MalformedClientHello

/-- Modelled from the spec: skip a field with a 1-byte length. -/
def skipVec8 : List Nat → Except SniffError (List Nat)
  | n :: rest => if rest.length < n then .error .MalformedClientHello else .ok (rest.drop n)
  | _ => .error .MalformedClientHello

/-- Modelled from the spec: skip a field with a 2-byte length. -/
def skipVec16 : List Nat → Except SniffError (List Nat)
  | n1 :: n2 :: rest =>
    if rest.length < n1 * 256 + n2 then .error .MalformedClientHello
    else .ok (rest.drop (n1 * 256 + n2))
  | _ => .error .MalformedClientHello

/-- Modelled from the spec: the ClientHello body: skip the protocol version
(2 bytes), the random (32 bytes), the session id (1-byte length), the cipher
suites (2-byte length) and the compression methods (1-byte length), then read
the extensions. -/
def parseClientHello (body : List Nat) : Except SniffError (Option (List Nat)) :=
  if body.length < 34 then .error .MalformedClientHello
  else
    match skipVec8 (body.drop 34) with
    | .error e => .error e
    | .ok afterSession =>
      match skipVec16 afterSession with
      | .error e => .error e
      | .ok afterSuites =>
        match skipVec8 afterSuites with
        | .error e => .error e
        | .ok afterCompression => parseExtensions afterCompression

/-- Modelled from the spec: the handshake message: the type must be
ClientHello (1); the 3-byte length bounds the body. -/
def parseHandshake : List Nat → Except SniffError (Option (List Nat))
  | typ :: l1 :: l2 :: l3 :: body =>
    if typ ≠ 1 then .error .MalformedClientHello
    else if body.length < l1 * 65536 + l2 * 256 + l3 then .error .MalformedClientHello
    else parseClientHello (body.take (l1 * 65536 + l2 * 256 + l3))
  | _ => .error .MalformedClientHello

/-- Modelled from the spec: the SNI extractor (section 4.1), which is not among
the source files: gather the records of the ClientHello, then locate the
`server_name` extension.  Every record takes at least five bytes of input, so
the round bound never runs out before the input does. -/
def extractSNI (budget : Nat) (input : List Nat) : Except SniffError Sniffed :=
  match readRecords budget (input.length + 1) input [] [] with
  | .error e => .error e
  | .ok (hs, sniff, unread) =>
    match parseHandshake hs with
    | .error e => .error e
    | .ok hostname => .ok { hostname := hostname, sniffBuffer := sniff, unread := unread }

/-- One extension of a ClientHello. -/
structure Extension where
  typ : Nat
  data : List Nat
deriving DecidableEq, Repr

/-- The fields of a TLS ClientHello (RFC 8446, section 4.1.2). -/
structure ClientHello where
  version : List Nat
  random : List Nat
  sessionId : List Nat
  cipherSuites : List Nat
  compressionMethods : List Nat
  extensions : List Extension
deriving DecidableEq, Repr

/-- The wire form of one extension. -/
def encodeExtension (e : Extension) : List Nat :=
  be16 e.typ ++ be16 e.data.length ++ e.data

/-- The wire form of the extension entries. -/
def encodeExtensions : List Extension → List Nat
  | [] => []
  | e :: rest => encodeExtension e ++ encodeExtensions rest

/-- The wire form of the ClientHello body. -/
def encodeBody (ch : ClientHello) : List Nat :=
  ch.version ++ ch.random ++ ([ch.sessionId.length] ++ ch.sessionId) ++
    (be16 ch.cipherSuites.length ++ ch.cipherSuites) ++
    ([ch.compressionMethods.length] ++ ch.compressionMethods) ++
    (be16 (encodeExtensions ch.extensions).length ++ encodeExtensions ch.extensions)

/-- The wire form of the handshake message carrying a ClientHello. -/
def encodeHandshake (ch : ClientHello) : List Nat :=
  [1] ++ be24 (encodeBody ch).length ++ encodeBody ch

/-- The wire form of a sequence of handshake records, one for each fragment. -/
def encodeRecords (recordVersion : Nat × Nat) : List (List Nat) → List Nat
  | [] => []
  | f :: rest =>
    [22, recordVersion.1, recordVersion.2] ++ be16 f.length ++ f ++
      encodeRecords recordVersion rest

/-- The data of a `server_name` extension naming one host. -/
def serverNameData (host : List Nat) : List Nat :=
  be16 (host.length + 3) ++ [0] ++ be16 host.length ++ host

/-- A ClientHello whose every field fits its length field and holds bytes. -/
def ClientHello.WellFormed (ch : ClientHello) : Prop :=
  ch.version.length = 2 ∧ ch.random.length = 32 ∧ ch.sessionId.length < 256 ∧
  ch.cipherSuites.length < 65536 ∧ ch.compressionMethods.length < 256 ∧
  (∀ e ∈ ch.extensions, e.typ < 65536 ∧ e.data.length < 65536 ∧ ∀ b ∈ e.data, b < 256) ∧
  (encodeExtensions ch.extensions).length < 65536 ∧
  (encodeBody ch).length < 16777216 ∧
  (∀ b ∈ ch.version, b < 256) ∧ (∀ b ∈ ch.random, b < 256) ∧
  (∀ b ∈ ch.sessionId, b < 256) ∧ (∀ b ∈ ch.cipherSuites, b < 256) ∧
  (∀ b ∈ ch.compressionMethods, b < 256)

/-- A small ClientHello naming the host `a.io`, with an extension before and
one after its `server_name` extension. -/
def exampleHello : ClientHello :=
  { version := [3, 3],
    random := List.replicate 32 7,
    sessionId := [1, 2, 3],
    cipherSuites := [0x13, 0x01, 0x13, 0x02],
    compressionMethods := [0],
    extensions := [⟨10, [0, 2, 0, 29]⟩, ⟨0, serverNameData [97, 46, 105, 111]⟩, ⟨11, [1, 0]⟩] }

instance (ch : ClientHello) : Decidable ch.WellFormed := by
  unfold ClientHello.WellFormed
  infer_instance

end Snid

/-! ## Theorems: the `net` model -/

namespace net

theorem parseIPv4FieldsLoop_length (s : List Char) :
    ∀ (first prevDot : Bool) (val pos digLen : Nat) (fields : List Nat) (r : Nat × Nat × List Nat),
      parseIPv4FieldsLoop s first prevDot val pos digLen fields = some r →
      r.2.2.length = fields.length := by
  induction s with
  | nil =>
    intro first prevDot val pos digLen fields r h
    simp only [parseIPv4FieldsLoop, Option.some.injEq] at h
    subst h
    rfl
  | cons c rest ih =>
    intro first prevDot val pos digLen fields r h
    simp only [parseIPv4FieldsLoop] at h
    split_ifs at h with h1 h2 h3 h4 h5 h6
    · exact ih _ _ _ _ _ _ r h
    · have := ih _ _ _ _ _ _ r h
      simpa using this

theorem parseIPv4Fields_length (s : List Char) (fields out : List Nat)
    (h : parseIPv4Fields s fields = some out) : out.length = fields.length := by
  unfold parseIPv4Fields at h
  split at h
  · cases h
  · rename_i val pos fields1 heq
    split_ifs at h
    simp only [Option.some.injEq] at h
    subst h
    have := parseIPv4FieldsLoop_length s _ _ _ _ _ _ _ heq
    simpa using this

theorem parseIPv6Loop_inv (fuel : Nat) :
    ∀ (s : List Char) (i : Nat) (ip : List Nat) (ellipsis : Option Nat)
      (r : List Char × Nat × List Nat × Option Nat),
      parseIPv6Loop fuel s i ip ellipsis = some r →
      ip.length = 16 → i % 2 = 0 → i ≤ 16 → (∀ e, ellipsis = some e → e ≤ i) →
      r.2.2.1.length = 16 ∧ r.2.1 ≤ 16 ∧ (∀ e, r.2.2.2 = some e → e ≤ r.2.1) := by
  induction fuel with
  | zero =>
    intro s i ip ellipsis r h hl _ hi he
    simp only [parseIPv6Loop, Option.some.injEq] at h
    subst h
    exact ⟨hl, hi, he⟩
  | succ fuel ih =>
    intro s i ip ellipsis r h hl hpar hi he
    rw [parseIPv6Loop] at h
    by_cases h16 : i < 16
    · rw [if_neg (not_not.mpr h16)] at h
      cases hhex : hexLoop s 0 0 with
      | none => rw [hhex] at h; cases h
      | some t =>
        obtain ⟨off, acc, rest⟩ := t
        rw [hhex] at h
        simp only at h
        by_cases h0 : off = 0
        · rw [if_pos h0] at h; cases h
        · rw [if_neg h0] at h
          by_cases hdot : rest.head? = some '.'
          · rw [if_pos hdot] at h
            by_cases hnone : ellipsis = none ∧ i ≠ 12
            · rw [if_pos hnone] at h; cases h
            · rw [if_neg hnone] at h
              by_cases h4 : i + 4 > 16
              · rw [if_pos h4] at h; cases h
              · rw [if_neg h4] at h
                cases hf : parseIPv4Fields s ((ip.drop i).take 4) with
                | none => rw [hf] at h; cases h
                | some fields =>
                  rw [hf] at h
                  simp only [Option.some.injEq] at h
                  subst h
                  have hfl := parseIPv4Fields_length _ _ _ hf
                  simp only [List.length_take, List.length_drop] at hfl
                  refine ⟨?_, by simp only; omega, ?_⟩
                  · simp only [List.length_append, List.length_take, List.length_drop, hfl]
                    omega
                  · intro e hee
                    have := he e hee
                    simp only
                    omega
          · rw [if_neg hdot] at h
            have hl1 : ((ip.set i (acc / 256)).set (i + 1) (acc % 256)).length = 16 := by
              simp [hl]
            cases rest with
            | nil =>
              simp only [Option.some.injEq] at h
              subst h
              refine ⟨hl1, by simp only; omega, ?_⟩
              intro e hee
              have := he e hee
              simp only
              omega
            | cons c s1 =>
              simp only at h
              by_cases hc : c ≠ ':'
              · rw [if_pos hc] at h; cases h
              · rw [if_neg hc] at h
                by_cases hs1 : s1 = []
                · rw [if_pos hs1] at h; cases h
                · rw [if_neg hs1] at h
                  by_cases hcol : s1.head? = some ':'
                  · rw [if_pos hcol] at h
                    by_cases hsome : ellipsis.isSome
                    · rw [if_pos hsome] at h; cases h
                    · rw [if_neg hsome] at h
                      by_cases htail : s1.tail = []
                      · rw [if_pos htail] at h
                        simp only [Option.some.injEq] at h
                        subst h
                        refine ⟨hl1, by simp only; omega, ?_⟩
                        intro e hee
                        simp only [Option.some.injEq] at hee
                        simp only
                        omega
                      · rw [if_neg htail] at h
                        exact ih _ _ _ _ r h hl1 (by omega) (by omega) (by
                          intro e hee
                          simp only [Option.some.injEq] at hee
                          omega)
                  · rw [if_neg hcol] at h
                    exact ih _ _ _ _ r h hl1 (by omega) (by omega) (by
                      intro e hee
                      have := he e hee
                      omega)
    · rw [if_pos h16] at h
      simp only [Option.some.injEq] at h
      subst h
      exact ⟨hl, hi, he⟩

theorem expandEllipsis_length (r : List Char × Nat × List Nat × Option Nat) (out : List Nat)
    (h : expandEllipsis r = some out) (hl : r.2.2.1.length = 16) (hi : r.2.1 ≤ 16)
    (he : ∀ e, r.2.2.2 = some e → e ≤ r.2.1) : out.length = 16 := by
  obtain ⟨s, i, ip, ellipsis⟩ := r
  simp only [expandEllipsis] at h
  split_ifs at h with hs hi16 hsome
  · split at h
    · cases h
    · rename_i e
      simp only [Option.some.injEq] at h
      subst h
      have := he e rfl
      simp only at hl hi this
      simp only [List.length_append, List.length_take, List.length_replicate, List.length_drop, hl]
      omega
  · simp only [Option.some.injEq] at h
    subst h
    exact hl

theorem parseIPv6_length (s : List Char) (ip : List Nat) (h : parseIPv6 s = some (.v6 ip)) :
    ip.length = 16 := by
  have key : ∀ (s1 : List Char) (ell : Option Nat),
      (∀ e, ell = some e → e ≤ 0) →
      ((parseIPv6Loop 8 s1 0 (List.replicate 16 0) ell).bind expandEllipsis).map Addr.v6
        = some (.v6 ip) → ip.length = 16 := by
    intro s1 ell hell hk
    simp only [Option.map_eq_some', Option.bind_eq_some] at hk
    obtain ⟨out, ⟨r, hr, hout⟩, hv⟩ := hk
    cases hv
    obtain ⟨h1, h2, h3⟩ := parseIPv6Loop_inv 8 s1 0 _ ell r hr (by simp) (by simp) (by omega) hell
    exact expandEllipsis_length r _ hout h1 h2 h3
  unfold parseIPv6 at h
  split_ifs at h
  split at h
  · simp only [Option.some.injEq, Addr.v6.injEq] at h
    subst h
    simp
  · exact key _ _ (by intro e he; cases he; exact le_rfl) h
  · exact key _ _ (by intro e he; cases he) h

theorem parseIPv4_length (s : List Char) (a : Addr) (h : parseIPv4 s = some a) :
    ∃ fields, a = .v4 fields ∧ fields.length = 4 := by
  unfold parseIPv4 at h
  split at h
  · cases h
  · rename_i fields hf
    simp only [Option.some.injEq] at h
    subst h
    exact ⟨fields, rfl, by simpa using parseIPv4Fields_length _ _ _ hf⟩

theorem parseIPv6_v6 (s : List Char) (a : Addr) (h : parseIPv6 s = some a) :
    ∃ ip, a = .v6 ip := by
  unfold parseIPv6 at h
  split_ifs at h
  split at h
  · exact ⟨_, (Option.some.inj h).symm⟩
  · simp only [Option.map_eq_some'] at h
    obtain ⟨x, _, hx⟩ := h
    exact ⟨x, hx.symm⟩
  · simp only [Option.map_eq_some'] at h
    obtain ⟨x, _, hx⟩ := h
    exact ⟨x, hx.symm⟩

theorem parseAddrScan_As16_length (s : List Char) :
    ∀ (rest : List Char) (a : Addr), parseAddrScan s rest = some a → a.As16.length = 16 := by
  intro rest
  induction rest with
  | nil => intro a h; cases h
  | cons c rest ih =>
    intro a h
    simp only [parseAddrScan] at h
    split_ifs at h
    · obtain ⟨fields, rfl, hf⟩ := parseIPv4_length s a h
      simp [Addr.As16, v4InV6Prefix, hf]
    · obtain ⟨ip, rfl⟩ := parseIPv6_v6 s a h
      exact parseIPv6_length s ip h
    · exact ih a h

/-- Every address `net.ParseIP` returns has 16 bytes. -/
theorem ParseIP_length (s : String) (ip : IP) (h : ParseIP s = some ip) : ip.length = 16 := by
  unfold ParseIP ParseAddr at h
  split at h
  · cases h
  · rename_i addr ha
    simp only [Option.some.injEq] at h
    subst h
    exact parseAddrScan_As16_length _ _ _ ha

end net

/-! ## Theorems: `src/main.go` -/

namespace Snid

theorem parseFlags_listen (args : List FlagArg) :
    ∀ (flags flags1 : Flags), parseFlags flags args = .ok flags1 →
      flags1.listen = flags.listen ++ listenArgs args := by
  induction args with
  | nil =>
    intro flags flags1 h
    simp only [parseFlags, Except.ok.injEq] at h
    subst h
    simp [listenArgs]
  | cons a rest ih =>
    intro flags flags1 h
    simp only [parseFlags] at h
    split at h
    · cases h
    · rename_i f1 heq
      have h1 := ih _ _ h
      cases a <;> simp only [setFlag, listenHandler, Prod.mk.injEq, and_true] at heq
      case listen arg => subst heq; simp [h1, listenArgs]
      case backendCidr arg =>
        simp only [backendCidrHandler] at heq
        split at heq
        · simp at heq
        · simp only [Prod.mk.injEq, and_true] at heq
          subst heq
          simpa [listenArgs] using h1
      case nat46Prefix arg =>
        simp only [nat46PrefixHandler] at heq
        split at heq
        · simp at heq
        · split_ifs at heq
          · simp at heq
          · simp only [Prod.mk.injEq, and_true] at heq
            subst heq
            simpa [listenArgs] using h1
      all_goals (subst heq; simpa [listenArgs] using h1)

theorem parseFlags_defaultHostname (args : List FlagArg) :
    ∀ (flags flags1 : Flags), parseFlags flags args = .ok flags1 →
      (∀ v, FlagArg.defaultHostname v ∉ args) →
      flags1.defaultHostname = flags.defaultHostname := by
  induction args with
  | nil =>
    intro flags flags1 h _
    simp only [parseFlags, Except.ok.injEq] at h
    subst h
    rfl
  | cons a rest ih =>
    intro flags flags1 h hno
    simp only [parseFlags] at h
    split at h
    · cases h
    · rename_i f1 heq
      have h1 := ih _ _ h (fun v hv => hno v (List.mem_cons_of_mem _ hv))
      cases a <;> simp only [setFlag, listenHandler, Prod.mk.injEq, and_true] at heq
      case defaultHostname v => exact absurd (List.mem_cons_self _ _) (hno v)
      case backendCidr arg =>
        simp only [backendCidrHandler] at heq
        split at heq
        · simp at heq
        · simp only [Prod.mk.injEq, and_true] at heq
          subst heq
          simpa using h1
      case nat46Prefix arg =>
        simp only [nat46PrefixHandler] at heq
        split at heq
        · simp at heq
        · split_ifs at heq
          · simp at heq
          · simp only [Prod.mk.injEq, and_true] at heq
            subst heq
            simpa using h1
      all_goals (subst heq; simpa using h1)

theorem parseFlags_proxyProto (args : List FlagArg) :
    ∀ (flags flags1 : Flags), parseFlags flags args = .ok flags1 →
      (∀ v, FlagArg.proxyProto v ∉ args) →
      flags1.proxyProto = flags.proxyProto := by
  induction args with
  | nil =>
    intro flags flags1 h _
    simp only [parseFlags, Except.ok.injEq] at h
    subst h
    rfl
  | cons a rest ih =>
    intro flags flags1 h hno
    simp only [parseFlags] at h
    split at h
    · cases h
    · rename_i f1 heq
      have h1 := ih _ _ h (fun v hv => hno v (List.mem_cons_of_mem _ hv))
      cases a <;> simp only [setFlag, listenHandler, Prod.mk.injEq, and_true] at heq
      case proxyProto v => exact absurd (List.mem_cons_self _ _) (hno v)
      case backendCidr arg =>
        simp only [backendCidrHandler] at heq
        split at heq
        · simp at heq
        · simp only [Prod.mk.injEq, and_true] at heq
          subst heq
          simpa using h1
      case nat46Prefix arg =>
        simp only [nat46PrefixHandler] at heq
        split at heq
        · simp at heq
        · split_ifs at heq
          · simp at heq
          · simp only [Prod.mk.injEq, and_true] at heq
            subst heq
            simpa using h1
      all_goals (subst heq; simpa using h1)

theorem selectBackend_ok_cases (flags : Flags) (backend : BackendDialer)
    (h : selectBackend flags = .ok backend) :
    (flags.backendType = "unix" ∧ flags.unixDirectory ≠ "" ∧
      backend = .unix { Directory := flags.unixDirectory }) ∨
    (flags.backendType = "tcp" ∧ flags.backendCidr ≠ [] ∧
      backend = .tcp { Port := flags.backendPort, Allowed := flags.backendCidr,
                       IPv6SourcePrefix := none }) ∨
    (flags.backendType = "nat46" ∧ flags.backendCidr ≠ [] ∧ flags.nat46Prefix ≠ none ∧
      backend = .tcp { Port := flags.backendPort, Allowed := flags.backendCidr,
                       IPv6SourcePrefix := flags.nat46Prefix }) := by
  unfold selectBackend at h
  split_ifs at h with h1 h2 h3 h4 h5 h6 h7
  · exact Or.inl ⟨h1, h2, (Except.ok.inj h).symm⟩
  · exact Or.inr (Or.inl ⟨h3, by simpa [List.length_eq_zero] using h4, (Except.ok.inj h).symm⟩)
  · exact Or.inr (Or.inr ⟨h5, by simpa [List.length_eq_zero] using h6, h7,
      (Except.ok.inj h).symm⟩)

theorem backendCidrHandler_ok (flags : Flags) (arg : String) (ip : net.IP) (ipnet : net.IPNet)
    (h : net.ParseCIDR arg = .ok (ip, ipnet)) :
    backendCidrHandler flags arg =
      ({ flags with backendCidr := flags.backendCidr ++ [ipnet] }, none) := by
  simp only [backendCidrHandler, h]

theorem parseFlags_backendCidr (args : List String) :
    ∀ (nets : List net.IPNet) (flags : Flags),
      List.Forall₂ (fun a n => ∃ ip, net.ParseCIDR a = .ok (ip, n)) args nets →
      parseFlags flags (args.map FlagArg.backendCidr) =
        .ok { flags with backendCidr := flags.backendCidr ++ nets } := by
  induction args with
  | nil =>
    intro nets flags h
    cases h
    simp [parseFlags]
  | cons a rest ih =>
    intro nets flags h
    cases h with
    | cons hhead htail =>
      rename_i n nets1
      obtain ⟨ip, hip⟩ := hhead
      simp only [List.map_cons, parseFlags, setFlag, backendCidrHandler_ok flags a ip n hip]
      rw [ih nets1 _ htail]
      simp

/-- C1: backend selection constructs a backend exactly for `unix` with a
non-empty directory, `tcp` with at least one allow-list entry, and `nat46` with
at least one allow-list entry and a prefix set; in every other case (any other
backend-type string, the empty one included) selection gives a fatal message
and `main` ends fatally with it. -/
theorem selectBackend_ok_iff (flags : Flags) :
    ((∃ backend, selectBackend flags = .ok backend) ↔
      ((flags.backendType = "unix" ∧ flags.unixDirectory ≠ "") ∨
       (flags.backendType = "tcp" ∧ flags.backendCidr ≠ []) ∨
       (flags.backendType = "nat46" ∧ flags.backendCidr ≠ [] ∧ flags.nat46Prefix ≠ none))) ∧
    (¬ ((flags.backendType = "unix" ∧ flags.unixDirectory ≠ "") ∨
        (flags.backendType = "tcp" ∧ flags.backendCidr ≠ []) ∨
        (flags.backendType = "nat46" ∧ flags.backendCidr ≠ [] ∧ flags.nat46Prefix ≠ none)) →
      ∃ msg, selectBackend flags = .error msg ∧ run flags = .fatal msg) := by
  have hiff : (∃ backend, selectBackend flags = .ok backend) ↔
      ((flags.backendType = "unix" ∧ flags.unixDirectory ≠ "") ∨
       (flags.backendType = "tcp" ∧ flags.backendCidr ≠ []) ∨
       (flags.backendType = "nat46" ∧ flags.backendCidr ≠ [] ∧ flags.nat46Prefix ≠ none)) := by
    constructor
    · rintro ⟨backend, h⟩
      rcases selectBackend_ok_cases flags backend h with h1 | h1 | h1
      · exact Or.inl ⟨h1.1, h1.2.1⟩
      · exact Or.inr (Or.inl ⟨h1.1, h1.2.1⟩)
      · exact Or.inr (Or.inr ⟨h1.1, h1.2.1, h1.2.2.1⟩)
    · rintro (⟨h1, h2⟩ | ⟨h1, h2⟩ | ⟨h1, h2, h3⟩)
      · exact ⟨.unix { Directory := flags.unixDirectory }, by simp [selectBackend, h1, h2]⟩
      · exact ⟨.tcp { Port := flags.backendPort, Allowed := flags.backendCidr,
                      IPv6SourcePrefix := none }, by simp [selectBackend, h1, h2]⟩
      · exact ⟨.tcp { Port := flags.backendPort, Allowed := flags.backendCidr,
                      IPv6SourcePrefix := flags.nat46Prefix },
          by simp [selectBackend, h1, h2, h3]⟩
  refine ⟨hiff, fun hnot => ?_⟩
  cases hsel : selectBackend flags with
  | ok backend => exact absurd (hiff.mp ⟨backend, hsel⟩) hnot
  | error msg => exact ⟨msg, rfl, by simp [run, buildServer, hsel]⟩

/-- C6: when backend selection succeeds the server holds the parsed options
verbatim: `DefaultHostname` and `ProxyProtocol` are the parsed options (the
defaults, the empty string and false, when the option does not occur); `unix`
gives a `UnixDialer` with the configured directory; `tcp` gives a `TCPDialer`
with the configured port and allow-list and no `IPv6SourcePrefix`, whatever
`nat46-prefix` value was supplied; `nat46` gives a `TCPDialer` with the
configured port, allow-list and prefix. -/
theorem buildServer_verbatim (args : List FlagArg) (flags : Flags) (server : Server)
    (hparse : parseFlags Flags.initial args = .ok flags)
    (hbuild : buildServer flags = .ok server) :
    server.DefaultHostname = flags.defaultHostname ∧
    server.ProxyProtocol = flags.proxyProto ∧
    ((∀ v, FlagArg.defaultHostname v ∉ args) → server.DefaultHostname = "") ∧
    ((∀ v, FlagArg.proxyProto v ∉ args) → server.ProxyProtocol = false) ∧
    (flags.backendType = "unix" →
      server.Backend = .unix { Directory := flags.unixDirectory }) ∧
    (flags.backendType = "tcp" →
      server.Backend = .tcp { Port := flags.backendPort, Allowed := flags.backendCidr,
                              IPv6SourcePrefix := none }) ∧
    (flags.backendType = "nat46" →
      flags.nat46Prefix ≠ none ∧
      server.Backend = .tcp { Port := flags.backendPort, Allowed := flags.backendCidr,
                              IPv6SourcePrefix := flags.nat46Prefix }) := by
  unfold buildServer at hbuild
  split at hbuild
  · cases hbuild
  · rename_i backend hsel
    simp only [Except.ok.injEq] at hbuild
    subst hbuild
    have hd := parseFlags_defaultHostname args _ _ hparse
    have hp := parseFlags_proxyProto args _ _ hparse
    refine ⟨rfl, rfl, fun h => hd h, fun h => hp h, ?_, ?_, ?_⟩
    · intro hb
      rcases selectBackend_ok_cases flags backend hsel with h1 | h1 | h1
      · exact h1.2.2
      · rw [hb] at h1; exact absurd h1.1 (by decide)
      · rw [hb] at h1; exact absurd h1.1 (by decide)
    · intro hb
      rcases selectBackend_ok_cases flags backend hsel with h1 | h1 | h1
      · rw [hb] at h1; exact absurd h1.1 (by decide)
      · exact h1.2.2
      · rw [hb] at h1; exact absurd h1.1 (by decide)
    · intro hb
      rcases selectBackend_ok_cases flags backend hsel with h1 | h1 | h1
      · rw [hb] at h1; exact absurd h1.1 (by decide)
      · rw [hb] at h1; exact absurd h1.1 (by decide)
      · exact ⟨h1.2.2.1, h1.2.2.2⟩

/-- Witness of C6: a `tcp` command line that also carries a `nat46-prefix`. -/
theorem buildServer_verbatim_witness :
    parseFlags Flags.initial
        [.backendType "tcp", .backendCidr "10.0.0.0/8", .backendPort 443,
         .nat46Prefix "64:ff9b::", .defaultHostname "fallback", .proxyProto true] =
      .ok { listen := [], defaultHostname := "fallback", backendType := "tcp",
            proxyProto := true, unixDirectory := "",
            backendCidr := [{ IP := [10, 0, 0, 0], Mask := [255, 0, 0, 0] }],
            backendPort := 443,
            nat46Prefix := some [0, 0x64, 0xff, 0x9b, 0, 0, 0, 0, 0, 0, 0, 0, 0, 0, 0, 0] } ∧
    (Server.mk true "fallback"
        (.tcp { Port := 443, Allowed := [{ IP := [10, 0, 0, 0], Mask := [255, 0, 0, 0] }],
                IPv6SourcePrefix := none })).Backend =
      .tcp { Port := 443, Allowed := [{ IP := [10, 0, 0, 0], Mask := [255, 0, 0, 0] }],
             IPv6SourcePrefix := none } :=
  ⟨by decide,
    (buildServer_verbatim
      [.backendType "tcp", .backendCidr "10.0.0.0/8", .backendPort 443,
       .nat46Prefix "64:ff9b::", .defaultHostname "fallback", .proxyProto true]
      { listen := [], defaultHostname := "fallback", backendType := "tcp",
        proxyProto := true, unixDirectory := "",
        backendCidr := [{ IP := [10, 0, 0, 0], Mask := [255, 0, 0, 0] }],
        backendPort := 443,
        nat46Prefix := some [0, 0x64, 0xff, 0x9b, 0, 0, 0, 0, 0, 0, 0, 0, 0, 0, 0, 0] }
      (Server.mk true "fallback"
        (.tcp { Port := 443, Allowed := [{ IP := [10, 0, 0, 0], Mask := [255, 0, 0, 0] }],
                IPv6SourcePrefix := none }))
      (by decide) (by decide)).2.2.2.2.2.1 rfl⟩

theorem parseFlags_backendCidrArgs (args : List FlagArg) :
    ∀ (flags flags1 : Flags), parseFlags flags args = .ok flags1 →
      ∃ nets, flags1.backendCidr = flags.backendCidr ++ nets ∧
        List.Forall₂ (fun a n => ∃ ip, net.ParseCIDR a = .ok (ip, n))
          (backendCidrArgs args) nets := by
  induction args with
  | nil =>
    intro flags flags1 h
    simp only [parseFlags, Except.ok.injEq] at h
    subst h
    exact ⟨[], by simp, by simp [backendCidrArgs]⟩
  | cons a rest ih =>
    intro flags flags1 h
    simp only [parseFlags] at h
    split at h
    · cases h
    · rename_i f1 heq
      obtain ⟨nets, hnets, hall⟩ := ih _ _ h
      cases a <;> simp only [setFlag, listenHandler, Prod.mk.injEq, and_true] at heq
      case backendCidr arg =>
        simp only [backendCidrHandler] at heq
        split at heq
        · simp at heq
        · rename_i ip ipnet hparse
          simp only [Prod.mk.injEq, and_true] at heq
          subst heq
          refine ⟨ipnet :: nets, by simpa using hnets, ?_⟩
          simp only [backendCidrArgs]
          exact List.Forall₂.cons ⟨ip, hparse⟩ hall
      case nat46Prefix arg =>
        simp only [nat46PrefixHandler] at heq
        split at heq
        · simp at heq
        · split_ifs at heq
          · simp at heq
          · simp only [Prod.mk.injEq, and_true] at heq
            subst heq
            exact ⟨nets, by simpa using hnets, by simpa [backendCidrArgs] using hall⟩
      all_goals (subst heq; exact ⟨nets, by simpa using hnets, by simpa [backendCidrArgs] using hall⟩)

/-- C7: the `backend-cidr` handler returns an error and leaves the flags (the
allow-list included) unchanged when the argument is not a valid CIDR; when it
is valid it returns no error and appends the parsed network at the end of the
allow-list.  Hence a sequence of valid arguments leaves one network for each
argument, in the order given, after the networks already there; and after any
command line that parses, the allow-list has grown by exactly the networks of
its `-backend-cidr` arguments, in order. -/
theorem backendCidrHandler_spec (flags : Flags) (arg : String) :
    (∀ err, net.ParseCIDR arg = .error err →
      (backendCidrHandler flags arg).2 = some err ∧
      (backendCidrHandler flags arg).1 = flags) ∧
    (∀ ip ipnet, net.ParseCIDR arg = .ok (ip, ipnet) →
      (backendCidrHandler flags arg).2 = none ∧
      (backendCidrHandler flags arg).1.backendCidr = flags.backendCidr ++ [ipnet] ∧
      (backendCidrHandler flags arg).1 =
        { flags with backendCidr := flags.backendCidr ++ [ipnet] }) ∧
    (∀ (args : List String) (nets : List net.IPNet),
      List.Forall₂ (fun a n => ∃ ip, net.ParseCIDR a = .ok (ip, n)) args nets →
      parseFlags flags (args.map FlagArg.backendCidr) =
        .ok { flags with backendCidr := flags.backendCidr ++ nets }) ∧
    (∀ (args : List FlagArg) (flags1 : Flags), parseFlags flags args = .ok flags1 →
      ∃ nets, flags1.backendCidr = flags.backendCidr ++ nets ∧
        List.Forall₂ (fun a n => ∃ ip, net.ParseCIDR a = .ok (ip, n))
          (backendCidrArgs args) nets) := by
  refine ⟨?_, ?_, fun args nets h => parseFlags_backendCidr args nets flags h,
    fun args flags1 h => parseFlags_backendCidrArgs args flags flags1 h⟩
  · intro err h
    simp only [backendCidrHandler, h, and_self]
  · intro ip ipnet h
    rw [backendCidrHandler_ok flags arg ip ipnet h]
    exact ⟨rfl, rfl, rfl⟩

/-- Witness of C7: an invalid argument, and two valid ones in order. -/
theorem backendCidrHandler_spec_witness :
    (backendCidrHandler Flags.initial "10.0.0.0/33").1 = Flags.initial ∧
    parseFlags Flags.initial
        (["10.0.0.0/8", "2001:db8::/32"].map FlagArg.backendCidr) =
      .ok { Flags.initial with
            backendCidr := Flags.initial.backendCidr ++
              [{ IP := [10, 0, 0, 0], Mask := [255, 0, 0, 0] },
               { IP := [0x20, 0x01, 0x0d, 0xb8, 0, 0, 0, 0, 0, 0, 0, 0, 0, 0, 0, 0],
                 Mask := [255, 255, 255, 255, 0, 0, 0, 0, 0, 0, 0, 0, 0, 0, 0, 0] }] } :=
  ⟨((backendCidrHandler_spec Flags.initial "10.0.0.0/33").1
      "invalid CIDR address: 10.0.0.0/33" (by decide)).2,
   (backendCidrHandler_spec Flags.initial "").2.2.1 ["10.0.0.0/8", "2001:db8::/32"] _
     (List.Forall₂.cons ⟨[0, 0, 0, 0, 0, 0, 0, 0, 0, 0, 255, 255, 10, 0, 0, 0], by decide⟩
       (List.Forall₂.cons
         ⟨[0x20, 0x01, 0x0d, 0xb8, 0, 0, 0, 0, 0, 0, 0, 0, 0, 0, 0, 0], by decide⟩
         List.Forall₂.nil))⟩

/-- C8 as stated fails: the handler accepts `64:ff9b::1` with no error, and the
last 32 bits of the stored address are not zero. -/
theorem nat46PrefixHandler_low_bits_counterexample :
    (nat46PrefixHandler Flags.initial "64:ff9b::1").2 = none ∧
    (nat46PrefixHandler Flags.initial "64:ff9b::1").1.nat46Prefix =
      some [0, 0x64, 0xff, 0x9b, 0, 0, 0, 0, 0, 0, 0, 0, 0, 0, 0, 1] ∧
    List.drop 12 [0, 0x64, 0xff, 0x9b, 0, 0, 0, 0, 0, 0, 0, 0, 0, 0, 0, 1] ≠ [0, 0, 0, 0] := by
  decide

/-- C8, amended: the `nat46-prefix` handler returns an error exactly for the
strings that do not parse as an IP address and for the addresses that have an
IPv4 form (`To4` non-nil); every value it accepts is the 16-byte address
`net.ParseIP` returned, with no IPv4 form.  The last 32 bits are not checked. -/
theorem nat46PrefixHandler_accepts (flags : Flags) (arg : String) :
    ((∃ err, (nat46PrefixHandler flags arg).2 = some err) ↔
      (net.ParseIP arg = none ∨
       ∃ ip, net.ParseIP arg = some ip ∧ net.IP.To4 ip ≠ none)) ∧
    ((nat46PrefixHandler flags arg).2 = none →
      ∃ ip, net.ParseIP arg = some ip ∧
        (nat46PrefixHandler flags arg).1 = { flags with nat46Prefix := some ip } ∧
        ip.length = 16 ∧ net.IP.To4 ip = none ∧
        ¬ (net.isZeros (ip.take 10) = true ∧ ip.getD 10 0 = 0xff ∧ ip.getD 11 0 = 0xff)) := by
  unfold nat46PrefixHandler
  cases hp : net.ParseIP arg with
  | none => simp
  | some ip =>
    have hlen := net.ParseIP_length arg ip hp
    cases h4 : net.IP.To4 ip with
    | some x => simp [h4]
    | none =>
      have hz : ¬ (net.isZeros (ip.take 10) = true ∧ ip.getD 10 0 = 0xff ∧
          ip.getD 11 0 = 0xff) := by
        intro hz
        unfold net.IP.To4 at h4
        rw [if_neg (by rw [hlen]; decide), if_pos ⟨hlen, hz⟩] at h4
        cases h4
      refine ⟨?_, ?_⟩
      · simp [h4]
      · intro _
        exact ⟨ip, rfl, by simp [h4], hlen, h4, hz⟩

/-- Witness of C8 (amended): the NAT64 well-known prefix is accepted. -/
theorem nat46PrefixHandler_accepts_witness :
    (nat46PrefixHandler Flags.initial "64:ff9b::").2 = none ∧
    ∃ ip, net.ParseIP "64:ff9b::" = some ip ∧
      (nat46PrefixHandler Flags.initial "64:ff9b::").1 =
        { Flags.initial with nat46Prefix := some ip } ∧
      ip.length = 16 ∧ net.IP.To4 ip = none ∧
      ¬ (net.isZeros (ip.take 10) = true ∧ ip.getD 10 0 = 0xff ∧ ip.getD 11 0 = 0xff) :=
  ⟨by decide, (nat46PrefixHandler_accepts Flags.initial "64:ff9b::").2 (by decide)⟩

/-- C9 as stated fails: a `tcp` command line that leaves `backend-port` unset
reaches `listener.OpenAll` with a `TCPDialer` whose port is 0. -/
theorem backendPort_unset_counterexample :
    main [.backendType "tcp", .backendCidr "10.0.0.0/8", .listen "tcp:443"] =
      .openAll ["tcp:443"]
        { ProxyProtocol := false, DefaultHostname := "",
          Backend := .tcp { Port := 0,
                            Allowed := [{ IP := [10, 0, 0, 0], Mask := [255, 0, 0, 0] }],
                            IPv6SourcePrefix := none } } := by
  decide

/-- C9, amended: for the `tcp` and `nat46` policies the backend port is not
checked at startup.  Backend selection ends fatally exactly when the allow-list
is empty or, for `nat46`, the prefix is unset, whatever the port; otherwise a
`TCPDialer` is constructed whose port is the configured one (0 when the option
was left unset). -/
theorem selectBackend_port_unchecked (flags : Flags)
    (h : flags.backendType = "tcp" ∨ flags.backendType = "nat46") :
    ((∃ msg, selectBackend flags = .error msg) ↔
      (flags.backendCidr = [] ∨ (flags.backendType = "nat46" ∧ flags.nat46Prefix = none))) ∧
    (∀ backend, selectBackend flags = .ok backend →
      ∃ d, backend = .tcp d ∧ d.Port = flags.backendPort ∧ d.Allowed = flags.backendCidr) ∧
    (∀ port : Int, (∃ msg, selectBackend { flags with backendPort := port } = .error msg) ↔
      (∃ msg, selectBackend flags = .error msg)) := by
  have hunix : ∀ t : String, (t = "tcp" ∨ t = "nat46") → t ≠ "unix" := by
    rintro t (rfl | rfl) <;> decide
  have hne := hunix _ h
  refine ⟨?_, ?_, ?_⟩
  · rcases h with h | h
    · simp [selectBackend, h, List.length_eq_zero]
      split_ifs <;> simp_all
    · have h2 : flags.backendType ≠ "tcp" := by rw [h]; decide
      simp [selectBackend, h, List.length_eq_zero]
      split_ifs <;> simp_all
  · intro backend hb
    rcases selectBackend_ok_cases flags backend hb with h1 | h1 | h1
    · exact absurd h1.1 hne
    · exact ⟨_, h1.2.2, rfl, rfl⟩
    · exact ⟨_, h1.2.2.2, rfl, rfl⟩
  · intro port
    simp only [selectBackend]
    split_ifs <;> simp

/-- Witness of C9 (amended): `tcp` with one network and the port left at 0. -/
theorem selectBackend_port_unchecked_witness :
    ∃ d, BackendDialer.tcp { Port := 0,
                             Allowed := [{ IP := [10, 0, 0, 0], Mask := [255, 0, 0, 0] }],
                             IPv6SourcePrefix := none } = .tcp d ∧
      d.Port = (0 : Int) ∧ d.Allowed = [{ IP := [10, 0, 0, 0], Mask := [255, 0, 0, 0] }] :=
  (selectBackend_port_unchecked
    { Flags.initial with backendType := "tcp",
                         backendCidr := [{ IP := [10, 0, 0, 0], Mask := [255, 0, 0, 0] }] }
    (Or.inl rfl)).2.1 _ (by decide)

/-- C10: `listener.OpenAll` is reached only after flag parsing and backend
selection have succeeded and with a non-empty listen list, which is the list
of `-listen` arguments in command-line order; with no `-listen` argument
startup ends fatally; and a failed backend selection is fatal with its own
message whatever listen addresses were given (it is checked first). -/
theorem main_openAll_spec (args : List FlagArg) :
    (∀ addrs server, main args = .openAll addrs server →
      ∃ flags, parseFlags Flags.initial args = .ok flags ∧
        (∃ backend, selectBackend flags = .ok backend ∧ server.Backend = backend) ∧
        buildServer flags = .ok server ∧
        addrs ≠ [] ∧ addrs = flags.listen ∧ addrs = listenArgs args) ∧
    (listenArgs args = [] → ∀ addrs server, main args ≠ .openAll addrs server) ∧
    (∀ flags, parseFlags Flags.initial args = .ok flags → listenArgs args = [] →
      ∃ msg, main args = .fatal msg) ∧
    (∀ flags msg, parseFlags Flags.initial args = .ok flags →
      selectBackend flags = .error msg →
      main args = .fatal msg ∧ ∀ listen, run { flags with listen := listen } = .fatal msg) := by
  have hopen : ∀ addrs server, main args = .openAll addrs server →
      ∃ flags, parseFlags Flags.initial args = .ok flags ∧
        (∃ backend, selectBackend flags = .ok backend ∧ server.Backend = backend) ∧
        buildServer flags = .ok server ∧
        addrs ≠ [] ∧ addrs = flags.listen ∧ addrs = listenArgs args := by
    intro addrs server h
    unfold main at h
    split at h
    · cases h
    · rename_i flags hparse
      refine ⟨flags, hparse, ?_⟩
      have hl := parseFlags_listen args _ _ hparse
      simp only [Flags.initial, List.nil_append] at hl
      unfold run at h
      split at h
      · cases h
      · rename_i server1 hbuild
        split_ifs at h with hlen
        simp only [Outcome.openAll.injEq] at h
        obtain ⟨h1, h2⟩ := h
        subst h1 h2
        refine ⟨?_, hbuild, ?_, rfl, hl⟩
        · unfold buildServer at hbuild
          split at hbuild
          · cases hbuild
          · rename_i backend hsel
            simp only [Except.ok.injEq] at hbuild
            subst hbuild
            exact ⟨backend, hsel, rfl⟩
        · intro hnil
          exact hlen (by rw [hnil]; rfl)
  refine ⟨hopen, ?_, ?_, ?_⟩
  · intro hnil addrs server h
    obtain ⟨flags, _, _, _, hne, _, heq⟩ := hopen addrs server h
    exact hne (heq.trans hnil)
  · intro flags hparse hnil
    have hl := parseFlags_listen args _ _ hparse
    simp only [Flags.initial, List.nil_append, hnil] at hl
    simp only [main, hparse, run]
    split
    · exact ⟨_, rfl⟩
    · rw [if_pos (by rw [hl]; rfl)]
      exact ⟨_, rfl⟩
  · intro flags msg hparse hsel
    refine ⟨?_, fun listen => ?_⟩
    · simp [main, hparse, run, buildServer, hsel]
    · have : selectBackend { flags with listen := listen } = .error msg := by
        simpa [selectBackend] using hsel
      simp [run, buildServer, this]

/-- Witness of C10: two `-listen` arguments around a valid `unix` backend. -/
theorem main_openAll_spec_witness :
    main [.listen "tcp:443", .backendType "unix", .unixDirectory "/sockets",
          .listen "tcp:8443"] =
      .openAll ["tcp:443", "tcp:8443"]
        { ProxyProtocol := false, DefaultHostname := "",
          Backend := .unix { Directory := "/sockets" } } ∧
    ∃ flags,
      parseFlags Flags.initial
        [.listen "tcp:443", .backendType "unix", .unixDirectory "/sockets",
         .listen "tcp:8443"] = .ok flags ∧
      (∃ backend, selectBackend flags = .ok backend ∧
        (Server.mk false "" (.unix { Directory := "/sockets" })).Backend = backend) ∧
      buildServer flags = .ok (Server.mk false "" (.unix { Directory := "/sockets" })) ∧
      ["tcp:443", "tcp:8443"] ≠ [] ∧ ["tcp:443", "tcp:8443"] = flags.listen ∧
      ["tcp:443", "tcp:8443"] =
        listenArgs [.listen "tcp:443", .backendType "unix", .unixDirectory "/sockets",
                    .listen "tcp:8443"] :=
  ⟨by decide,
   (main_openAll_spec [.listen "tcp:443", .backendType "unix", .unixDirectory "/sockets",
      .listen "tcp:8443"]).1 _ _ (by decide)⟩

end Snid

/-! ## Theorems: the backend dialers -/

namespace Snid

theorem To4_length (ip ip4 : net.IP) (hlen : ip.length = 16) (h : net.IP.To4 ip = some ip4) :
    ip4.length = 4 ∧ ip4 = ip.drop 12 := by
  unfold net.IP.To4 at h
  rw [if_neg (by rw [hlen]; decide)] at h
  split_ifs at h
  simp only [Option.some.injEq] at h
  subst h
  have : (ip.drop 12).length = 4 := by rw [List.length_drop, hlen]
  refine ⟨by rw [List.length_take, this]; rfl, ?_⟩
  exact List.take_of_length_le (le_of_eq this)

/-- C2: the Restricted-Direct Dialer resolves a target only for a hostname
that is a literal IP address inside at least one allow-listed prefix, and the
target is that address with the fixed port; a literal IP address outside every
prefix is rejected with `BackendNotAllowed` and a string that is not an IP
literal with `InvalidHostname`, and a rejection resolves no target. -/
theorem TCPDialer_Dial_restricted (d : TCPDialer) (hostname : String)
    (h : d.IPv6SourcePrefix = none) :
    (∀ t, d.Dial hostname = .ok t →
      ∃ ip, net.ParseIP hostname = some ip ∧ (∃ n ∈ d.Allowed, n.Contains ip = true) ∧
        t = .tcp ip d.Port) ∧
    (∀ ip, net.ParseIP hostname = some ip → (∃ n ∈ d.Allowed, n.Contains ip = true) →
      d.Dial hostname = .ok (.tcp ip d.Port)) ∧
    (∀ ip, net.ParseIP hostname = some ip → (∀ n ∈ d.Allowed, n.Contains ip = false) →
      d.Dial hostname = .error .BackendNotAllowed) ∧
    (net.ParseIP hostname = none → d.Dial hostname = .error .InvalidHostname) := by
  unfold TCPDialer.Dial
  rw [h]
  cases hp : net.ParseIP hostname with
  | none => simp
  | some ip =>
    by_cases ha : allowed d.Allowed ip = true
    · have hex : ∃ n ∈ d.Allowed, n.Contains ip = true := by
        simpa [allowed, List.any_eq_true] using ha
      simp only [ha, if_true, Except.ok.injEq, Option.some.injEq, reduceCtorEq, false_implies,
        and_true]
      refine ⟨fun t ht => ⟨ip, rfl, hex, ht.symm⟩, fun ip1 h1 _ => by rw [h1], ?_⟩
      intro ip1 h1 hall
      subst h1
      obtain ⟨n, hn, hc⟩ := hex
      rw [hall n hn] at hc
      cases hc
    · have hall : ¬ ∃ n ∈ d.Allowed, n.Contains ip = true := by
        simpa [allowed, List.any_eq_true] using ha
      simp only [ha, Bool.false_eq_true, if_false, reduceCtorEq, false_implies, implies_true,
        Option.some.injEq, true_and, and_true]
      intro ip1 h1 hex
      subst h1
      exact absurd hex hall

/-- Witness of C2: allow-list 10.0.0.0/8 and port 443. -/
theorem TCPDialer_Dial_restricted_witness :
    net.ParseCIDR "10.0.0.0/8" =
      .ok ([0, 0, 0, 0, 0, 0, 0, 0, 0, 0, 255, 255, 10, 0, 0, 0],
           { IP := [10, 0, 0, 0], Mask := [255, 0, 0, 0] }) ∧
    net.IP.To4 [0, 0, 0, 0, 0, 0, 0, 0, 0, 0, 255, 255, 10, 1, 2, 3] = some [10, 1, 2, 3] ∧
    TCPDialer.Dial { Port := 443, Allowed := [{ IP := [10, 0, 0, 0], Mask := [255, 0, 0, 0] }],
                     IPv6SourcePrefix := none } "10.1.2.3" =
      .ok (.tcp [0, 0, 0, 0, 0, 0, 0, 0, 0, 0, 255, 255, 10, 1, 2, 3] 443) ∧
    TCPDialer.Dial { Port := 443, Allowed := [{ IP := [10, 0, 0, 0], Mask := [255, 0, 0, 0] }],
                     IPv6SourcePrefix := none } "8.8.8.8" = .error .BackendNotAllowed ∧
    TCPDialer.Dial { Port := 443, Allowed := [{ IP := [10, 0, 0, 0], Mask := [255, 0, 0, 0] }],
                     IPv6SourcePrefix := none } "not-an-ip" = .error .InvalidHostname :=
  ⟨by decide, by decide,
   (TCPDialer_Dial_restricted _ "10.1.2.3" rfl).2.1 _ (by decide) (by decide),
   (TCPDialer_Dial_restricted _ "8.8.8.8" rfl).2.2.1
     [0, 0, 0, 0, 0, 0, 0, 0, 0, 0, 255, 255, 8, 8, 8, 8] (by decide) (by decide),
   (TCPDialer_Dial_restricted _ "not-an-ip" rfl).2.2.2 (by decide)⟩

/-- C3: the Local-Socket Dialer rejects a hostname with `InvalidHostname`,
resolving no path, exactly when it is empty, contains the path separator,
equals `.` or `..`, or contains a null byte; every other hostname resolves to
the base directory joined with the hostname. -/
theorem UnixDialer_Dial_spec (d : UnixDialer) (hostname : String) :
    (d.Dial hostname = .error .InvalidHostname ↔
      (hostname = "" ∨ '/' ∈ hostname.toList ∨ hostname = "." ∨ hostname = ".." ∨
        Char.ofNat 0 ∈ hostname.toList)) ∧
    ((∃ e, d.Dial hostname = .error e) ↔
      (hostname = "" ∨ '/' ∈ hostname.toList ∨ hostname = "." ∨ hostname = ".." ∨
        Char.ofNat 0 ∈ hostname.toList)) ∧
    (¬ (hostname = "" ∨ '/' ∈ hostname.toList ∨ hostname = "." ∨ hostname = ".." ∨
        Char.ofNat 0 ∈ hostname.toList) →
      d.Dial hostname = .ok (.socket (joinPath d.Directory hostname))) := by
  unfold UnixDialer.Dial
  split_ifs with hc
  · exact ⟨⟨fun _ => hc, fun _ => rfl⟩, ⟨fun _ => hc, fun _ => ⟨_, rfl⟩⟩,
      fun hn => absurd hc hn⟩
  · refine ⟨⟨fun h => ?_, fun h => absurd h hc⟩, ⟨fun h => ?_, fun h => absurd h hc⟩,
      fun _ => rfl⟩
    · cases h
    · obtain ⟨e, he⟩ := h
      cases he

/-- Witness of C3: the rejected hostnames of the specification, and `app1`
under `/sockets`. -/
theorem UnixDialer_Dial_spec_witness :
    UnixDialer.Dial { Directory := "/sockets" } "a/b" = .error .InvalidHostname ∧
    UnixDialer.Dial { Directory := "/sockets" } "../escape" = .error .InvalidHostname ∧
    UnixDialer.Dial { Directory := "/sockets" } "" = .error .InvalidHostname ∧
    UnixDialer.Dial { Directory := "/sockets" } "a\x00b" = .error .InvalidHostname ∧
    UnixDialer.Dial { Directory := "/sockets" } "." = .error .InvalidHostname ∧
    UnixDialer.Dial { Directory := "/sockets" } ".." = .error .InvalidHostname ∧
    UnixDialer.Dial { Directory := "/sockets" } "app1" = .ok (.socket "/sockets/app1") :=
  ⟨(UnixDialer_Dial_spec _ "a/b").1.mpr (by decide),
   (UnixDialer_Dial_spec _ "../escape").1.mpr (by decide),
   (UnixDialer_Dial_spec _ "").1.mpr (by decide),
   (UnixDialer_Dial_spec _ "a\x00b").1.mpr (by decide),
   (UnixDialer_Dial_spec _ ".").1.mpr (by decide),
   (UnixDialer_Dial_spec _ "..").1.mpr (by decide),
   (UnixDialer_Dial_spec { Directory := "/sockets" } "app1").2.2 (by decide)⟩

/-- C5: the NAT64 Dialer, for a configured prefix (the value `net.ParseIP`
gave for the option) and a hostname that is an IPv4 literal inside the
allow-list, resolves the 16-byte address whose first 96 bits are those of the
prefix and whose last 32 bits are the four bytes of the IPv4 address, with the
fixed port. -/
theorem TCPDialer_Dial_nat64 (d : TCPDialer) (arg hostname : String) (pfx ip ip4 : net.IP)
    (hpfx : net.ParseIP arg = some pfx) (hd : d.IPv6SourcePrefix = some pfx)
    (hip : net.ParseIP hostname = some ip) (h4 : net.IP.To4 ip = some ip4)
    (hallow : ∃ n ∈ d.Allowed, n.Contains ip = true) :
    ∃ address, d.Dial hostname = .ok (.tcp address d.Port) ∧
      address.length = 16 ∧ address.take 12 = pfx.take 12 ∧ address.drop 12 = ip4 ∧
      ip4.length = 4 ∧ ip4 = ip.drop 12 := by
  have hplen := net.ParseIP_length arg pfx hpfx
  have hilen := net.ParseIP_length hostname ip hip
  obtain ⟨h4len, h4eq⟩ := To4_length ip ip4 hilen h4
  have ha : allowed d.Allowed ip = true := by
    simpa [allowed, List.any_eq_true] using hallow
  have htl : (pfx.take 12).length = 12 := by rw [List.length_take, hplen]; rfl
  refine ⟨pfx.take 12 ++ ip4, ?_, ?_, ?_, ?_, h4len, h4eq⟩
  · simp only [TCPDialer.Dial, hip, hd, h4, ha, if_true]
  · rw [List.length_append, htl, h4len]
  · rw [List.take_append_of_le_length (le_of_eq htl.symm), List.take_of_length_le (le_of_eq htl)]
  · rw [List.drop_append_of_le_length (le_of_eq htl.symm), List.drop_of_length_le (le_of_eq htl),
      List.nil_append]

/-- Witness of C5: prefix 64:ff9b::, allow-list 0.0.0.0/0, hostname 1.2.3.4
give 64:ff9b::102:304. -/
theorem TCPDialer_Dial_nat64_witness :
    net.ParseCIDR "0.0.0.0/0" =
      .ok ([0, 0, 0, 0, 0, 0, 0, 0, 0, 0, 255, 255, 0, 0, 0, 0],
           { IP := [0, 0, 0, 0], Mask := [0, 0, 0, 0] }) ∧
    net.ParseIP "64:ff9b::102:304" =
      some [0, 0x64, 0xff, 0x9b, 0, 0, 0, 0, 0, 0, 0, 0, 1, 2, 3, 4] ∧
    TCPDialer.Dial { Port := 443, Allowed := [{ IP := [0, 0, 0, 0], Mask := [0, 0, 0, 0] }],
                     IPv6SourcePrefix := net.ParseIP "64:ff9b::" } "1.2.3.4" =
      .ok (.tcp [0, 0x64, 0xff, 0x9b, 0, 0, 0, 0, 0, 0, 0, 0, 1, 2, 3, 4] 443) ∧
    ∃ address,
      TCPDialer.Dial { Port := 443, Allowed := [{ IP := [0, 0, 0, 0], Mask := [0, 0, 0, 0] }],
                       IPv6SourcePrefix := net.ParseIP "64:ff9b::" } "1.2.3.4" =
        .ok (.tcp address 443) ∧
      address.length = 16 ∧
      address.take 12 = List.take 12 [0, 0x64, 0xff, 0x9b, 0, 0, 0, 0, 0, 0, 0, 0, 0, 0, 0, 0] ∧
      address.drop 12 = [1, 2, 3, 4] ∧ [1, 2, 3, 4].length = 4 ∧
      [1, 2, 3, 4] = List.drop 12 [0, 0, 0, 0, 0, 0, 0, 0, 0, 0, 255, 255, 1, 2, 3, 4] :=
  ⟨by decide, by decide, by decide,
   TCPDialer_Dial_nat64
     { Port := 443, Allowed := [{ IP := [0, 0, 0, 0], Mask := [0, 0, 0, 0] }],
       IPv6SourcePrefix := net.ParseIP "64:ff9b::" }
     "64:ff9b::" "1.2.3.4" [0, 0x64, 0xff, 0x9b, 0, 0, 0, 0, 0, 0, 0, 0, 0, 0, 0, 0]
     [0, 0, 0, 0, 0, 0, 0, 0, 0, 0, 255, 255, 1, 2, 3, 4] [1, 2, 3, 4]
     (by decide) (by decide) (by decide) (by decide) (by decide)⟩

end Snid

/-! ## Theorems: the SNI extractor -/

namespace Snid

theorem be16_decode (n : Nat) : n / 256 * 256 + n % 256 = n := by
  omega

theorem be24_decode (n : Nat) :
    n / 65536 * 65536 + n / 256 % 256 * 256 + n % 256 = n := by
  omega

theorem take_length_append (a b : List Nat) : (a ++ b).take a.length = a := by
  simp

theorem drop_length_append (a b : List Nat) : (a ++ b).drop a.length = b := by
  simp

theorem skipVec8_encoded (data rest : List Nat) :
    skipVec8 ([data.length] ++ data ++ rest) = .ok rest := by
  simp [skipVec8]

theorem skipVec16_encoded (data rest : List Nat) :
    skipVec16 (be16 data.length ++ data ++ rest) = .ok rest := by
  simp [skipVec16, be16, be16_decode]

theorem parseServerName_encoded (host : List Nat) :
    parseServerName (serverNameData host) = .ok (some host) := by
  simp [parseServerName, serverNameData, be16, be16_decode]

theorem encodeExtensions_append (pre post : List Extension) :
    encodeExtensions (pre ++ post) = encodeExtensions pre ++ encodeExtensions post := by
  induction pre with
  | nil => rfl
  | cons e rest ih => simp [encodeExtensions, ih]

theorem encodeExtensions_length (exts : List Extension) :
    exts.length ≤ (encodeExtensions exts).length := by
  induction exts with
  | nil => simp [encodeExtensions]
  | cons e rest ih =>
    simp only [encodeExtensions, encodeExtension, be16, List.length_append, List.length_cons,
      List.length_nil]
    omega

theorem encodeExtension_cons (e : Extension) (tail : List Nat) :
    encodeExtension e ++ tail =
      e.typ / 256 :: e.typ % 256 :: e.data.length / 256 :: e.data.length % 256 ::
        (e.data ++ tail) := by
  simp [encodeExtension, be16]

theorem scanExtensions_step (fuel t1 t2 l1 l2 : Nat) (rest : List Nat) :
    scanExtensions (fuel + 1) (t1 :: t2 :: l1 :: l2 :: rest) =
      if rest.length < l1 * 256 + l2 then .error .MalformedClientHello
      else if t1 * 256 + t2 = 0 then parseServerName (rest.take (l1 * 256 + l2))
      else scanExtensions fuel (rest.drop (l1 * 256 + l2)) := by
  rw [scanExtensions]

theorem scanExtensions_finds (host tail : List Nat) :
    ∀ (pre : List Extension) (fuel : Nat), pre.length < fuel →
      (∀ e ∈ pre, e.typ ≠ 0) →
      scanExtensions fuel
        (encodeExtensions pre ++ (encodeExtension ⟨0, serverNameData host⟩ ++ tail)) =
        .ok (some host) := by
  intro pre
  induction pre with
  | nil =>
    intro fuel hfuel _
    obtain ⟨fuel, rfl⟩ : ∃ k, fuel = k + 1 := ⟨fuel - 1, by simp at hfuel; omega⟩
    have hdec := be16_decode (serverNameData host).length
    rw [encodeExtensions, List.nil_append, encodeExtension_cons, scanExtensions_step]
    simp only [hdec, Nat.zero_div, Nat.zero_mod, Nat.zero_mul, Nat.add_zero, if_true]
    rw [if_neg (by rw [List.length_append]; omega), take_length_append]
    exact parseServerName_encoded host
  | cons e rest ih =>
    intro fuel hfuel hall
    obtain ⟨fuel, rfl⟩ : ∃ k, fuel = k + 1 := ⟨fuel - 1, by simp at hfuel; omega⟩
    have hne := hall e (List.mem_cons_self _ _)
    have hdec := be16_decode e.data.length
    have htyp := be16_decode e.typ
    rw [encodeExtensions, List.append_assoc, encodeExtension_cons, scanExtensions_step]
    simp only [hdec, htyp]
    rw [if_neg (by rw [List.length_append]; omega), if_neg hne, drop_length_append]
    exact ih fuel (by simp at hfuel; omega) (fun e1 he1 => hall e1 (List.mem_cons_of_mem _ he1))

theorem parseExtensions_step (l1 l2 : Nat) (exts : List Nat) :
    parseExtensions (l1 :: l2 :: exts) =
      if exts.length < l1 * 256 + l2 then .error .MalformedClientHello
      else scanExtensions ((l1 * 256 + l2) + 1) (exts.take (l1 * 256 + l2)) := by
  rw [parseExtensions]

theorem parseExtensions_finds (host : List Nat) (pre post : List Extension)
    (hpre : ∀ e ∈ pre, e.typ ≠ 0) :
    parseExtensions
      (be16 (encodeExtensions (pre ++ ⟨0, serverNameData host⟩ :: post)).length ++
        encodeExtensions (pre ++ ⟨0, serverNameData host⟩ :: post)) = .ok (some host) := by
  have hdec := be16_decode (encodeExtensions (pre ++ ⟨0, serverNameData host⟩ :: post)).length
  have hcons : ∀ (n : Nat) (l : List Nat), be16 n ++ l = n / 256 :: n % 256 :: l := by
    intro n l; simp [be16]
  rw [hcons, parseExtensions_step]
  simp only [hdec, lt_irrefl, if_false, List.take_length]
  rw [encodeExtensions_append, encodeExtensions]
  refine scanExtensions_finds host _ pre _ ?_ hpre
  have hpre := encodeExtensions_length pre
  rw [List.length_append]
  omega

theorem parseClientHello_encoded (ch : ClientHello) (host : List Nat)
    (pre post : List Extension) (hv : ch.version.length = 2) (hr : ch.random.length = 32)
    (hext : ch.extensions = pre ++ ⟨0, serverNameData host⟩ :: post)
    (hpre : ∀ e ∈ pre, e.typ ≠ 0) :
    parseClientHello (encodeBody ch) = .ok (some host) := by
  have h34 : (ch.version ++ ch.random).length = 34 := by rw [List.length_append, hv, hr]
  have hbody : encodeBody ch = (ch.version ++ ch.random) ++
      (([ch.sessionId.length] ++ ch.sessionId) ++
        ((be16 ch.cipherSuites.length ++ ch.cipherSuites) ++
          (([ch.compressionMethods.length] ++ ch.compressionMethods) ++
            (be16 (encodeExtensions ch.extensions).length ++
              encodeExtensions ch.extensions)))) := by
    simp only [encodeBody, List.append_assoc]
  have hdrop : (encodeBody ch).drop 34 =
      ([ch.sessionId.length] ++ ch.sessionId) ++
        ((be16 ch.cipherSuites.length ++ ch.cipherSuites) ++
          (([ch.compressionMethods.length] ++ ch.compressionMethods) ++
            (be16 (encodeExtensions ch.extensions).length ++
              encodeExtensions ch.extensions))) := by
    rw [hbody, ← h34, drop_length_append]
  have hge : ¬ (encodeBody ch).length < 34 := by
    rw [hbody, List.length_append, h34]
    omega
  unfold parseClientHello
  rw [if_neg hge, hdrop, skipVec8_encoded]
  simp only
  rw [skipVec16_encoded]
  simp only
  rw [skipVec8_encoded]
  simp only
  rw [hext]
  exact parseExtensions_finds host pre post hpre

theorem parseHandshake_encoded (ch : ClientHello) (host : List Nat)
    (pre post : List Extension) (hv : ch.version.length = 2) (hr : ch.random.length = 32)
    (hext : ch.extensions = pre ++ ⟨0, serverNameData host⟩ :: post)
    (hpre : ∀ e ∈ pre, e.typ ≠ 0) :
    parseHandshake (encodeHandshake ch) = .ok (some host) := by
  have hcons : encodeHandshake ch =
      1 :: (encodeBody ch).length / 65536 :: (encodeBody ch).length / 256 % 256 ::
        (encodeBody ch).length % 256 :: encodeBody ch := by
    simp [encodeHandshake, be24]
  rw [hcons, parseHandshake]
  simp only [ne_eq, not_true_eq_false, if_false, be24_decode, lt_irrefl, List.take_length]
  exact parseClientHello_encoded ch host pre post hv hr hext hpre

theorem encodeHandshake_cons (ch : ClientHello) :
    encodeHandshake ch =
      1 :: (encodeBody ch).length / 65536 :: (encodeBody ch).length / 256 % 256 ::
        (encodeBody ch).length % 256 :: encodeBody ch := by
  simp [encodeHandshake, be24]

theorem handshakeComplete_prefix (ch : ClientHello) (p q : List Nat)
    (h : p ++ q = encodeHandshake ch) : handshakeComplete p = true ↔ q = [] := by
  rw [encodeHandshake_cons] at h
  match p, h with
  | [], h => simp [handshakeComplete] at h ⊢; rw [h]; simp
  | [_], h => simp [handshakeComplete] at h ⊢; rw [h.2]; simp
  | [_, _], h => simp [handshakeComplete] at h ⊢; rw [h.2.2]; simp
  | [_, _, _], h => simp [handshakeComplete] at h ⊢; rw [h.2.2.2]; simp
  | x :: y :: z :: w :: body, h =>
    simp only [List.cons_append, List.cons.injEq] at h
    obtain ⟨_, hy, hz, hw, hb⟩ := h
    have hl : (encodeBody ch).length = body.length + q.length := by
      rw [← hb, List.length_append]
    have hdec := be24_decode (encodeBody ch).length
    simp only [handshakeComplete, decide_eq_true_eq, hy, hz, hw, hdec, hl]
    rw [← List.length_eq_zero]
    omega

theorem encodeRecords_cons (v : Nat × Nat) (f : List Nat) (fs : List (List Nat))
    (rest : List Nat) :
    encodeRecords v (f :: fs) ++ rest =
      22 :: v.1 :: v.2 :: f.length / 256 :: f.length % 256 ::
        (f ++ (encodeRecords v fs ++ rest)) := by
  simp [encodeRecords, be16]

theorem encodeRecords_length (v : Nat × Nat) (f : List Nat) (fs : List (List Nat)) :
    (encodeRecords v (f :: fs)).length = 5 + f.length + (encodeRecords v fs).length := by
  simp [encodeRecords, be16]
  omega

theorem encodeRecords_count (v : Nat × Nat) (fs : List (List Nat)) :
    fs.length ≤ (encodeRecords v fs).length := by
  induction fs with
  | nil => simp
  | cons f rest ih => rw [encodeRecords_length, List.length_cons]; omega

theorem readRecords_step (budget fuel typ v1 v2 l1 l2 : Nat) (payload sniff hs : List Nat) :
    readRecords budget (fuel + 1) (typ :: v1 :: v2 :: l1 :: l2 :: payload) sniff hs =
      if sniff.length + 5 > budget then .error .HandshakeTooLarge
      else if typ ≠ 22 then .error .NotHandshake
      else if sniff.length + 5 + (l1 * 256 + l2) > budget then .error .HandshakeTooLarge
      else if payload.length < l1 * 256 + l2 then .error .SniffTimeout
      else if handshakeComplete (hs ++ payload.take (l1 * 256 + l2)) then
        .ok (hs ++ payload.take (l1 * 256 + l2),
             sniff ++ [typ, v1, v2, l1, l2] ++ payload.take (l1 * 256 + l2),
             payload.drop (l1 * 256 + l2))
      else readRecords budget fuel (payload.drop (l1 * 256 + l2))
        (sniff ++ [typ, v1, v2, l1, l2] ++ payload.take (l1 * 256 + l2))
        (hs ++ payload.take (l1 * 256 + l2)) := by
  rw [readRecords]

theorem readRecords_fragments (budget : Nat) (v : Nat × Nat) (ch : ClientHello)
    (rest : List Nat) :
    ∀ (frags : List (List Nat)) (fuel : Nat) (sniff hs : List Nat),
      frags ≠ [] → (∀ f ∈ frags, f ≠ []) → frags.length ≤ fuel →
      hs ++ frags.flatten = encodeHandshake ch →
      sniff.length + (encodeRecords v frags).length ≤ budget →
      readRecords budget fuel (encodeRecords v frags ++ rest) sniff hs =
        .ok (encodeHandshake ch, sniff ++ encodeRecords v frags, rest) := by
  intro frags
  induction frags with
  | nil => intro _ _ _ h; exact absurd rfl h
  | cons f fs ih =>
    intro fuel sniff hs _ hne hfuel hjoin hbudget
    obtain ⟨fuel, rfl⟩ : ∃ k, fuel = k + 1 := ⟨fuel - 1, by simp at hfuel; omega⟩
    have hlen := encodeRecords_length v f fs
    have hdec := be16_decode f.length
    rw [encodeRecords_cons, readRecords_step]
    simp only [hdec, ne_eq, not_true_eq_false, if_false, take_length_append,
      drop_length_append]
    rw [if_neg (by omega), if_neg (by omega), if_neg (by rw [List.length_append]; omega)]
    have hpre : (hs ++ f) ++ fs.flatten = encodeHandshake ch := by
      rw [← hjoin, List.flatten_cons, List.append_assoc]
    have hcomp := handshakeComplete_prefix ch (hs ++ f) fs.flatten hpre
    have hsniff : sniff ++ [22, v.1, v.2, f.length / 256, f.length % 256] ++ f ++
        encodeRecords v fs = sniff ++ encodeRecords v (f :: fs) := by
      simp [encodeRecords, be16]
    cases fs with
    | nil =>
      rw [if_pos (hcomp.mpr rfl)]
      simp only [List.flatten_nil, List.append_nil] at hpre
      simp only [encodeRecords, List.nil_append, List.append_nil] at hsniff ⊢
      rw [hpre, hsniff]
    | cons g gs =>
      have hg : g ≠ [] := hne g (List.mem_cons_of_mem _ (List.mem_cons_self _ _))
      have hq : (g :: gs).flatten ≠ [] := by
        rw [List.flatten_cons]
        intro hnil
        exact hg (List.append_eq_nil.mp hnil).1
      have hfalse : ¬ handshakeComplete (hs ++ f) = true := fun hc => hq (hcomp.mp hc)
      rw [if_neg hfalse]
      rw [ih fuel _ _ (List.cons_ne_nil _ _)
        (fun x hx => hne x (List.mem_cons_of_mem _ hx)) (by simp at hfuel ⊢; omega) hpre
        (by simp only [List.length_append, List.length_cons, List.length_nil]; omega)]
      rw [hsniff]

theorem bytes_append (a b : List Nat) (ha : ∀ x ∈ a, x < 256) (hb : ∀ x ∈ b, x < 256) :
    ∀ x ∈ a ++ b, x < 256 := by
  intro x hx
  rcases List.mem_append.mp hx with h | h
  · exact ha x h
  · exact hb x h

theorem bytes_be16 (n : Nat) (h : n < 65536) : ∀ x ∈ be16 n, x < 256 := by
  intro x hx
  simp only [be16, List.mem_cons, List.mem_singleton, List.not_mem_nil, or_false] at hx
  rcases hx with hx | hx <;> omega

theorem bytes_be24 (n : Nat) (h : n < 16777216) : ∀ x ∈ be24 n, x < 256 := by
  intro x hx
  simp only [be24, List.mem_cons, List.mem_singleton, List.not_mem_nil, or_false] at hx
  rcases hx with hx | hx | hx <;> omega

theorem bytes_singleton (n : Nat) (h : n < 256) : ∀ x ∈ [n], x < 256 := by
  intro x hx
  rw [List.mem_singleton.mp hx]
  exact h

theorem encodeExtensions_bytes (exts : List Extension)
    (h : ∀ e ∈ exts, e.typ < 65536 ∧ e.data.length < 65536 ∧ ∀ b ∈ e.data, b < 256) :
    ∀ b ∈ encodeExtensions exts, b < 256 := by
  induction exts with
  | nil => intro b hb; simp [encodeExtensions] at hb
  | cons e rest ih =>
    obtain ⟨ht, hl, hd⟩ := h e (List.mem_cons_self _ _)
    rw [encodeExtensions, encodeExtension]
    exact bytes_append _ _
      (bytes_append _ _ (bytes_append _ _ (bytes_be16 _ ht) (bytes_be16 _ hl)) hd)
      (ih (fun e1 he1 => h e1 (List.mem_cons_of_mem _ he1)))

theorem encodeHandshake_bytes (ch : ClientHello) (hwf : ch.WellFormed) :
    ∀ b ∈ encodeHandshake ch, b < 256 := by
  obtain ⟨_, _, hs, hc, hm, he, hel, hbl, bv, br, bs, bc, bm⟩ := hwf
  have hx := encodeExtensions_bytes ch.extensions he
  have hbody : ∀ b ∈ encodeBody ch, b < 256 := by
    rw [encodeBody]
    exact bytes_append _ _
      (bytes_append _ _
        (bytes_append _ _
          (bytes_append _ _ (bytes_append _ _ bv br)
            (bytes_append _ _ (bytes_singleton _ hs) bs))
          (bytes_append _ _ (bytes_be16 _ hc) bc))
        (bytes_append _ _ (bytes_singleton _ hm) bm))
      (bytes_append _ _ (bytes_be16 _ hel) hx)
  rw [encodeHandshake]
  exact bytes_append _ _ (bytes_append _ _ (bytes_singleton _ (by omega)) (bytes_be24 _ hbl))
    hbody

theorem encodeRecords_bytes (v : Nat × Nat) (hv : v.1 < 256 ∧ v.2 < 256) :
    ∀ frags : List (List Nat), (∀ f ∈ frags, f.length < 65536) →
      (∀ b ∈ frags.flatten, b < 256) → ∀ b ∈ encodeRecords v frags, b < 256 := by
  intro frags
  induction frags with
  | nil => intro _ _ b hb; simp [encodeRecords] at hb
  | cons f fs ih =>
    intro hlen hbytes
    have hf := hlen f (List.mem_cons_self _ _)
    have h3 : ∀ x ∈ [22, v.1, v.2], x < 256 := by
      intro x hx
      simp only [List.mem_cons, List.mem_singleton, List.not_mem_nil, or_false] at hx
      rcases hx with hx | hx | hx <;> omega
    rw [encodeRecords]
    exact bytes_append _ _
      (bytes_append _ _ (bytes_append _ _ h3 (bytes_be16 _ hf))
        (fun b hb => hbytes b (by rw [List.flatten_cons]; exact List.mem_append_left _ hb)))
      (ih (fun g hg => hlen g (List.mem_cons_of_mem _ hg))
        (fun c hc => hbytes c (by rw [List.flatten_cons]; exact List.mem_append_right _ hc)))

/-- C4: for a valid ClientHello whose first extension of type 0 is a
`server_name` extension naming `host`, sent as any sequence of non-empty
handshake record fragments within the byte budget and followed by any further
input, the extractor returns exactly the bytes of `host`, and its Sniff Buffer
is exactly the bytes read from the input (the records of the ClientHello), the
rest of the input being left unread; the input is a sequence of bytes. -/
theorem extractSNI_roundtrip (budget : Nat) (v : Nat × Nat) (ch : ClientHello)
    (host : List Nat) (pre post : List Extension) (frags : List (List Nat)) (rest : List Nat)
    (hwf : ch.WellFormed)
    (hext : ch.extensions = pre ++ ⟨0, serverNameData host⟩ :: post)
    (hpre : ∀ e ∈ pre, e.typ ≠ 0)
    (hv : v.1 < 256 ∧ v.2 < 256)
    (hfrags : frags.flatten = encodeHandshake ch)
    (hne : ∀ f ∈ frags, f ≠ [] ∧ f.length < 65536)
    (hbudget : (encodeRecords v frags).length ≤ budget) :
    extractSNI budget (encodeRecords v frags ++ rest) =
      .ok { hostname := some host, sniffBuffer := encodeRecords v frags, unread := rest } ∧
    (∀ b ∈ encodeRecords v frags, b < 256) := by
  have hnil : frags ≠ [] := by
    intro h
    rw [h, encodeHandshake_cons] at hfrags
    cases hfrags
  have hread := readRecords_fragments budget v ch rest frags
    ((encodeRecords v frags ++ rest).length + 1) [] [] hnil (fun f hf => (hne f hf).1)
    (by have := encodeRecords_count v frags; rw [List.length_append]; omega)
    (by rw [List.nil_append]; exact hfrags)
    (by simpa using hbudget)
  refine ⟨?_, ?_⟩
  · unfold extractSNI
    rw [hread]
    simp only [List.nil_append]
    rw [parseHandshake_encoded ch host pre post hwf.1 hwf.2.1 hext hpre]
  · apply encodeRecords_bytes v hv frags (fun f hf => (hne f hf).2)
    rw [hfrags]
    exact encodeHandshake_bytes ch hwf

/-- Witness of C4: `exampleHello` sent in two records, followed by the start
of another record. -/
theorem extractSNI_roundtrip_witness :
    extractSNI 16384
        (encodeRecords (3, 1)
          [(encodeHandshake exampleHello).take 40, (encodeHandshake exampleHello).drop 40] ++
          [20, 3, 3, 0, 1, 1]) =
      .ok { hostname := some [97, 46, 105, 111],
            sniffBuffer := encodeRecords (3, 1)
              [(encodeHandshake exampleHello).take 40, (encodeHandshake exampleHello).drop 40],
            unread := [20, 3, 3, 0, 1, 1] } ∧
    (∀ b ∈ encodeRecords (3, 1)
        [(encodeHandshake exampleHello).take 40, (encodeHandshake exampleHello).drop 40],
      b < 256) :=
  extractSNI_roundtrip 16384 (3, 1) exampleHello [97, 46, 105, 111]
    [⟨10, [0, 2, 0, 29]⟩] [⟨11, [1, 0]⟩]
    [(encodeHandshake exampleHello).take 40, (encodeHandshake exampleHello).drop 40]
    [20, 3, 3, 0, 1, 1]
    (by decide) (by decide) (by decide) (by decide) (by decide) (by decide) (by decide)

end Snid
